import Mathlib

/-!
# GuardCDN upload handler: shallow embedding

The repository is a single Go file, `main.go`: a startup routine `main` and the
HTTP handler `uploadHandler`.  Go strings are byte sequences, so every string
is a `List UInt8` here and `len` is `List.length`.  The parts of the Go
standard library and of `github.com/google/uuid` that the handler calls are
embedded next to it (Unix build: the path separator is `/` and there are no
volume names).  Everything outside the handler's control (random bytes, the
outcome of file creation, of the copy, of writes to the connection, and which
of the two `encoding/json` implementations the program is built with) is an
explicit input.
-/

set_option autoImplicit false

namespace GuardCDN

/-- A Go string: an immutable sequence of bytes. -/
abbrev GoString := List UInt8

/-- An ASCII literal as a Go string (one byte per character). -/
def str (s : String) : GoString := s.toList.map (fun c => c.toNat.toUInt8)

/-! ## `path/filepath` (Unix) -/

/-- The constant `filepath.Separator`. -/
def Separator : UInt8 := 0x2f

/-- The byte `.`. -/
def dot : UInt8 := 0x2e

/-- The function `os.IsPathSeparator`. -/
def IsPathSeparator (c : UInt8) : Bool := c == Separator

/-- The loop of `filepath.Ext`, over the bytes of `path` from the last one
back to the first: `rev` holds the bytes not yet visited, last byte first, and
`acc` is `path[i+1:]`.  The scan stops at a path separator. -/
def extLoop : List UInt8 → List UInt8 → GoString
  | [], _ => []
  | c :: rev, acc =>
    if IsPathSeparator c then []
    else if c = dot then c :: acc
    else extLoop rev (c :: acc)

/-- The function `filepath.Ext`:
`for i := len(path) - 1; i >= 0 && !os.IsPathSeparator(path[i]); i--`
returning `path[i:]` at the first `.` met, and `""` when the loop ends. -/
def Ext (path : GoString) : GoString := extLoop path.reverse []

/-- The lazily written output buffer of `filepath.Clean` (`lazybuf`): its
first `w` bytes are the output so far; the buffer is kept as exactly those
bytes, so `w` is its length. -/
structure CleanState where
  out : List UInt8
  dotdot : Nat
deriving DecidableEq

/-- The inner loop of the `..` case of `Clean`, after the first `out.w--`:
`for out.w > dotdot && !os.IsPathSeparator(out.index(out.w)) { out.w-- }`;
returns the final `out.w`. -/
def backtrack (buf : List UInt8) (dotdot : Nat) : Nat → Nat
  | 0 => 0
  | w + 1 =>
    if w + 1 > dotdot ∧ !IsPathSeparator (buf.getD (w + 1) 0) then backtrack buf dotdot w
    else w + 1

/-- Test of the second `switch` case of `Clean` at the head of the unread
input: `path[r] == '.' && (r+1 == n || os.IsPathSeparator(path[r+1]))`. -/
def atDot : List UInt8 → Bool
  | [c] => c == dot
  | c :: d :: _ => c == dot && IsPathSeparator d
  | [] => false

/-- Test of the third `switch` case of `Clean`:
`path[r] == '.' && path[r+1] == '.' && (r+2 == n || os.IsPathSeparator(path[r+2]))`. -/
def atDotDot : List UInt8 → Bool
  | [c, d] => c == dot && d == dot
  | c :: d :: e :: _ => c == dot && d == dot && IsPathSeparator e
  | _ => false

/-- The main loop of `filepath.Clean`; `rest` is `path[r:]`.  Every iteration
consumes at least one byte, so `rest.length` iterations always suffice. -/
def cleanLoop (rooted : Bool) : Nat → CleanState → List UInt8 → CleanState
  | 0, st, _ => st
  | _ + 1, st, [] => st
  | fuel + 1, st, c :: rest =>
    if IsPathSeparator c then
      -- empty path element
      cleanLoop rooted fuel st rest
    else if atDot (c :: rest) then
      -- . element
      cleanLoop rooted fuel st rest
    else if atDotDot (c :: rest) then
      -- .. element: remove to last separator
      let rest2 := rest.drop 1
      if st.out.length > st.dotdot then
        -- can backtrack
        let w := backtrack st.out st.dotdot (st.out.length - 1)
        cleanLoop rooted fuel { st with out := st.out.take w } rest2
      else if !rooted then
        -- cannot backtrack, but not rooted, so append .. element.
        let out1 := if st.out.length > 0 then st.out ++ [Separator] else st.out
        let out2 := out1 ++ [dot, dot]
        cleanLoop rooted fuel { out := out2, dotdot := out2.length } rest2
      else
        cleanLoop rooted fuel st rest2
    else
      -- real path element. add slash if needed
      let out1 :=
        if (rooted && st.out.length != 1) || (!rooted && st.out.length != 0)
        then st.out ++ [Separator] else st.out
      -- copy element
      let elem := (c :: rest).takeWhile (fun b => !IsPathSeparator b)
      let rest2 := (c :: rest).dropWhile (fun b => !IsPathSeparator b)
      cleanLoop rooted fuel { st with out := out1 ++ elem } rest2

/-- The unread input after one iteration of the loop of `Clean` (the new
`path[r:]`), for stating how the loop proceeds step by step. -/
def cleanNextRest : List UInt8 → List UInt8
  | [] => []
  | c :: rest =>
    if IsPathSeparator c then rest
    else if atDot (c :: rest) then rest
    else if atDotDot (c :: rest) then rest.drop 1
    else (c :: rest).dropWhile (fun b => !IsPathSeparator b)

/-- The output buffer after one iteration of the loop of `Clean`. -/
def cleanNextState (rooted : Bool) (st : CleanState) : List UInt8 → CleanState
  | [] => st
  | c :: rest =>
    if IsPathSeparator c then st
    else if atDot (c :: rest) then st
    else if atDotDot (c :: rest) then
      if st.out.length > st.dotdot then
        { st with out := st.out.take (backtrack st.out st.dotdot (st.out.length - 1)) }
      else if !rooted then
        { out := (if st.out.length > 0 then st.out ++ [Separator] else st.out) ++ [dot, dot],
          dotdot := ((if st.out.length > 0 then st.out ++ [Separator] else st.out)
            ++ [dot, dot]).length }
      else st
    else
      { st with out :=
          (if (rooted && st.out.length != 1) || (!rooted && st.out.length != 0)
            then st.out ++ [Separator] else st.out)
          ++ (c :: rest).takeWhile (fun b => !IsPathSeparator b) }

/-- The function `filepath.Clean` on Unix (no volume name, `FromSlash` is the
identity). -/
def Clean (path : GoString) : GoString :=
  match path with
  | [] => [dot]
  | c :: _ =>
    let rooted := IsPathSeparator c
    let st0 : CleanState :=
      if rooted then { out := [Separator], dotdot := 1 } else { out := [], dotdot := 0 }
    let r0 := if rooted then path.drop 1 else path
    let st := cleanLoop rooted r0.length st0 r0
    -- Turn empty string into "."
    if st.out.length = 0 then [dot] else st.out

/-- The function `strings.Join`. -/
def stringsJoin : List GoString → GoString → GoString
  | [], _ => []
  | [a], _ => a
  | a :: b :: rest, sep => a ++ sep ++ stringsJoin (b :: rest) sep

/-- The function `filepath.Join` on Unix: the elements from the first
non-empty one on are joined with the separator and cleaned; `""` when every
element is empty. -/
def Join : List GoString → GoString
  | [] => []
  | e :: rest =>
    if e ≠ [] then Clean (stringsJoin (e :: rest) [Separator]) else Join rest

/-- First loop of `filepath.Base`: strip trailing slashes. -/
def stripTrailingSeparators (path : GoString) : GoString :=
  (path.reverse.dropWhile IsPathSeparator).reverse

/-- Second loop of `filepath.Base`: the bytes after the last separator. -/
def lastElement (path : GoString) : GoString :=
  (path.reverse.takeWhile (fun b => !IsPathSeparator b)).reverse

/-- The function `filepath.Base` on Unix. -/
def Base (path : GoString) : GoString :=
  if path = [] then [dot]
  else
    let p := lastElement (stripTrailingSeparators path)
    -- If empty now, it had only slashes.
    if p = [] then [Separator] else p

/-! ## `github.com/google/uuid` and `encoding/hex` -/

/-- The table `hextable` of `encoding/hex`: `"0123456789abcdef"`. -/
def hextable (n : Nat) : UInt8 :=
  if n < 10 then (0x30 + n).toUInt8 else (0x61 + (n - 10)).toUInt8

/-- The function `hex.Encode`: `hextable[v>>4]`, `hextable[v&0x0f]` per byte. -/
def hexEncode : List UInt8 → List UInt8
  | [] => []
  | v :: rest => hextable (v >>> 4).toNat :: hextable (v &&& 0x0f).toNat :: hexEncode rest

/-- The function `uuid.NewRandom`, given the 16 bytes read from the random
source: version 4 and variant 10 are stamped on bytes 6 and 8. -/
def uuidNew (random : Fin 16 → UInt8) : List UInt8 :=
  let uuid := List.ofFn random
  let uuid := uuid.set 6 ((uuid.getD 6 0 &&& 0x0f) ||| 0x40)
  uuid.set 8 ((uuid.getD 8 0 &&& 0x3f) ||| 0x80)

/-- The method `UUID.String` (`encodeHex`): the form
`xxxxxxxx-xxxx-xxxx-xxxx-xxxxxxxxxxxx`. -/
def uuidString (uuid : List UInt8) : GoString :=
  hexEncode (uuid.take 4) ++ [0x2d] ++ hexEncode ((uuid.drop 4).take 2) ++ [0x2d] ++
    hexEncode ((uuid.drop 6).take 2) ++ [0x2d] ++ hexEncode ((uuid.drop 8).take 2) ++ [0x2d] ++
    hexEncode (uuid.drop 10)

/-! ## `unicode/utf8` -/

/-- The constant `utf8.RuneError`. -/
def RuneError : Nat := 0xFFFD

/-- The lower bound `accept.lo` of the second byte, from the tables `first`
and `acceptRanges`, for a leading byte `s0` in `0xC2..0xF4`. -/
def acceptLo (s0 : UInt8) : UInt8 :=
  if s0 = 0xE0 then 0xA0 else if s0 = 0xF0 then 0x90 else 0x80

/-- The upper bound `accept.hi` of the second byte. -/
def acceptHi (s0 : UInt8) : UInt8 :=
  if s0 = 0xED then 0x9F else if s0 = 0xF4 then 0x8F else 0xBF

/-- The encoded length `first[s0] & 7` for a leading byte in `0xC2..0xF4`. -/
def seqLen (s0 : UInt8) : Nat :=
  if s0 < 0xE0 then 2 else if s0 < 0xF0 then 3 else 4

/-- The function `utf8.DecodeRuneInString`: the rune at the head of `s` and its
width in bytes; `(RuneError, 1)` on an encoding error, `(RuneError, 0)` on the
empty string.  The masks and shifts are written as `%` and `*`. -/
def DecodeRuneInString (s : List UInt8) : Nat × Nat :=
  match s with
  | [] => (RuneError, 0)
  | s0 :: t =>
    if s0 < 0x80 then (s0.toNat, 1)
    else if s0 < 0xC2 ∨ 0xF4 < s0 then (RuneError, 1)
    else
      let sz := seqLen s0
      if s.length < sz then (RuneError, 1)
      else
        let s1 := t.getD 0 0
        if s1 < acceptLo s0 ∨ acceptHi s0 < s1 then (RuneError, 1)
        else if sz ≤ 2 then (s0.toNat % 32 * 64 + s1.toNat % 64, 2)
        else
          let s2 := t.getD 1 0
          if s2 < 0x80 ∨ 0xBF < s2 then (RuneError, 1)
          else if sz ≤ 3 then (s0.toNat % 16 * 4096 + s1.toNat % 64 * 64 + s2.toNat % 64, 3)
          else
            let s3 := t.getD 2 0
            if s3 < 0x80 ∨ 0xBF < s3 then (RuneError, 1)
            else (s0.toNat % 8 * 262144 + s1.toNat % 64 * 4096 + s2.toNat % 64 * 64
                    + s3.toNat % 64, 4)

/-- The function `utf8.EncodeRune`, returning the bytes written. -/
def EncodeRune (r : Nat) : List UInt8 :=
  if r ≤ 0x7F then [r.toUInt8]
  else if r ≤ 0x7FF then [(0xC0 + r / 64).toUInt8, (0x80 + r % 64).toUInt8]
  else
    let r := if r > 0x10FFFF ∨ (0xD800 ≤ r ∧ r ≤ 0xDFFF) then RuneError else r
    if r ≤ 0xFFFF then
      [(0xE0 + r / 4096).toUInt8, (0x80 + r / 64 % 64).toUInt8, (0x80 + r % 64).toUInt8]
    else
      [(0xF0 + r / 262144).toUInt8, (0x80 + r / 4096 % 64).toUInt8,
        (0x80 + r / 64 % 64).toUInt8, (0x80 + r % 64).toUInt8]

/-- The loop of `utf8.RuneCountInString`: every decoding step is one rune. -/
def runeCountLoop : Nat → List UInt8 → Nat
  | 0, _ => 0
  | _ + 1, [] => 0
  | fuel + 1, b :: rest =>
    1 + runeCountLoop fuel ((b :: rest).drop (DecodeRuneInString (b :: rest)).2)

/-- The function `utf8.RuneCountInString`: the number of characters (runes). -/
def RuneCountInString (s : GoString) : Nat := runeCountLoop s.length s

/-- The loop of `utf8.ValidString`: no decoding step reports an encoding
error. -/
def validLoop : Nat → List UInt8 → Bool
  | 0, _ => true
  | _ + 1, [] => true
  | fuel + 1, b :: rest =>
    let d := DecodeRuneInString (b :: rest)
    if d.1 = RuneError ∧ d.2 = 1 then false
    else validLoop fuel ((b :: rest).drop d.2)

/-- The function `utf8.ValidString`. -/
def ValidString (s : GoString) : Bool := validLoop s.length s

/-! ## `encoding/json` -/

/-- The table `htmlSafeSet`: the ASCII bytes written without escaping when
HTML escaping is on (the `Encoder` default): everything from space up, except
the double quote, `&`, `<`, `>` and the backslash. -/
def htmlSafeSet (b : UInt8) : Bool :=
  0x20 ≤ b && b < 0x80 && b != 0x22 && b != 0x26 && b != 0x3c && b != 0x3e && b != 0x5c

/-- The escape written by `appendString` for an ASCII byte outside
`htmlSafeSet`. -/
def escapeByte (b : UInt8) : List UInt8 :=
  if b = 0x5c ∨ b = 0x22 then [0x5c, b]
  else if b = 0x08 then [0x5c, 0x62]
  else if b = 0x0c then [0x5c, 0x66]
  else if b = 0x0a then [0x5c, 0x6e]
  else if b = 0x0d then [0x5c, 0x72]
  else if b = 0x09 then [0x5c, 0x74]
  else [0x5c, 0x75, 0x30, 0x30, hextable (b >>> 4).toNat, hextable (b &&& 0x0f).toNat]

/-- The loop of `appendString` of `encoding/json` with `escapeHTML` on; the
argument is `src[i:]` and the result is what the loop appends to `dst` (the
bytes `src[start:i]` that the source copies in one go are written here as they
are passed over).  For a byte that is not valid UTF-8 the legacy encoder
writes the escape of U+FFFD; the encoder built on the v2 implementation writes
U+FFFD itself (`raw`).  On valid UTF-8 the two write the same bytes. -/
def appendStringLoop (raw : Bool) : Nat → List UInt8 → List UInt8
  | 0, _ => []
  | _ + 1, [] => []
  | fuel + 1, b :: rest =>
    if b < 0x80 then
      if htmlSafeSet b then b :: appendStringLoop raw fuel rest
      else escapeByte b ++ appendStringLoop raw fuel rest
    else
      let d := DecodeRuneInString ((b :: rest).take 4)
      if d.1 = RuneError ∧ d.2 = 1 then
        (if raw then [0xEF, 0xBF, 0xBD] else [0x5c, 0x75, 0x66, 0x66, 0x66, 0x64])
          ++ appendStringLoop raw fuel rest
      else if d.1 = 0x2028 ∨ d.1 = 0x2029 then
        [0x5c, 0x75, 0x32, 0x30, 0x32, hextable (d.1 % 16)]
          ++ appendStringLoop raw fuel ((b :: rest).drop d.2)
      else
        (b :: rest).take d.2 ++ appendStringLoop raw fuel ((b :: rest).drop d.2)

/-- The function `appendString`: the JSON string literal for `src`. -/
def appendString (raw : Bool) (src : GoString) : List UInt8 :=
  [0x22] ++ appendStringLoop raw src.length src ++ [0x22]

/-- The type `uploadResponse`. -/
structure uploadResponse where
  URL : GoString
deriving DecidableEq

/-- The bytes `json.Marshal` produces for an `uploadResponse`: an object with
the single key `url`. -/
def jsonMarshal (raw : Bool) (v : uploadResponse) : List UInt8 :=
  [0x7b] ++ str "\"url\":" ++ appendString raw v.URL ++ [0x7d]

/-! ## `net/http` -/

/-- The second loop of `textproto.CanonicalMIMEHeaderKey`, for a key made of
valid header bytes: upper case at the start and after each dash, lower case
elsewhere. -/
def canonicalLoop : Bool → List UInt8 → List UInt8
  | _, [] => []
  | upper, c :: rest =>
    let c1 :=
      if upper ∧ 0x61 ≤ c ∧ c ≤ 0x7a then c - 0x20
      else if ¬upper ∧ 0x41 ≤ c ∧ c ≤ 0x5a then c + 0x20
      else c
    c1 :: canonicalLoop (c1 == 0x2d) rest

/-- The function `textproto.CanonicalMIMEHeaderKey` on the keys this program
uses (letters and dashes only). -/
def CanonicalMIMEHeaderKey (key : GoString) : GoString := canonicalLoop true key

/-- The type `http.Header`: canonical key to list of values. -/
abbrev Header := GoString → List GoString

/-- The method `Header.Get`: the first value under the canonical key, `""`
when there is none. -/
def Header.Get (h : Header) (key : GoString) : GoString :=
  match h (CanonicalMIMEHeaderKey key) with
  | [] => []
  | v :: _ => v

/-- The method `Header.Set`. -/
def Header.Set (h : Header) (key value : GoString) : Header :=
  fun k => if k = CanonicalMIMEHeaderKey key then [value] else h k

/-- The method `Header.Del`. -/
def Header.Del (h : Header) (key : GoString) : Header :=
  fun k => if k = CanonicalMIMEHeaderKey key then [] else h k

/-- The state of an `http.ResponseWriter`: the header map the handler edits,
whether the status line has gone out, the status and header that went out with
it, the body bytes delivered, and whether writes to the connection fail. -/
structure ResponseWriter where
  header : Header
  wroteHeader : Bool
  status : Nat
  sentHeader : Header
  body : List UInt8
  writeErr : Bool

/-- A fresh response writer, as the server hands it to the handler. -/
def newResponseWriter (writeErr : Bool) : ResponseWriter :=
  { header := fun _ => [], wroteHeader := false, status := 0, sentHeader := fun _ => [],
    body := [], writeErr := writeErr }

/-- The method `ResponseWriter.WriteHeader`: the first call fixes the status
and the header; later calls are ignored (superfluous). -/
def ResponseWriter.WriteHeader (w : ResponseWriter) (code : Nat) : ResponseWriter :=
  if w.wroteHeader then w
  else { w with wroteHeader := true, status := code, sentHeader := w.header }

/-- The method `ResponseWriter.Write`: sends the header with status 200 if it
has not gone out yet, then the data; the flag is `err == nil`. -/
def ResponseWriter.Write (w : ResponseWriter) (data : List UInt8) : ResponseWriter × Bool :=
  let w1 := if w.wroteHeader then w else w.WriteHeader 200
  if w1.writeErr then (w1, false) else ({ w1 with body := w1.body ++ data }, true)

/-- The function `http.Error`. -/
def httpError (w : ResponseWriter) (error : GoString) (code : Nat) : ResponseWriter :=
  let h := w.header.Del (str "Content-Length")
  let h := h.Set (str "Content-Type") (str "text/plain; charset=utf-8")
  let h := h.Set (str "X-Content-Type-Options") (str "nosniff")
  let w1 := ({ w with header := h }).WriteHeader code
  (w1.Write (error ++ [0x0a])).1

/-- The method `Encoder.Encode` on an `uploadResponse`: the marshalled value,
a newline, one `Write`; marshalling this type cannot fail. -/
def jsonEncode (raw : Bool) (w : ResponseWriter) (v : uploadResponse) :
    ResponseWriter × Bool :=
  w.Write (jsonMarshal raw v ++ [0x0a])

/-- The type `multipart.FileHeader`, with what `Open` yields: the file's
bytes, or an error. -/
structure FileHeader where
  Filename : GoString
  content : List UInt8
  openErr : Bool
deriving DecidableEq

/-- The part of `http.Request` the handler reads.  `MultipartForm` is the
parsed form's `File` map (field name to file headers), `none` when
`ParseMultipartForm` fails. -/
structure Request where
  Method : GoString
  Header : Header
  MultipartForm : Option (GoString → List FileHeader)

/-- The method `Request.FormFile`: the first file under `key`; `none` stands
for a non-nil error (parse failure, `ErrMissingFile`, or `Open` failing). -/
def Request.FormFile (r : Request) (key : GoString) : Option (List UInt8 × FileHeader) :=
  match r.MultipartForm with
  | none => none
  | some files =>
    match files key with
    | [] => none
    | fh :: _ => if fh.openErr then none else some (fh.content, fh)

/-! ## The filesystem and the outcomes outside the handler's control -/

/-- The storage: path to file content. -/
abbrev FS := GoString → Option (List UInt8)

/-- What the handler does not control in one run. -/
structure Env where
  /-- the 16 bytes `uuid.New` reads from the random source -/
  random : Fin 16 → UInt8
  /-- `os.Create` returns an error -/
  createErr : Bool
  /-- `io.Copy` returns an error after that many bytes have been written -/
  copyErr : Option Nat
  /-- the program is built with the `encoding/json` that writes U+FFFD itself,
  not its escape, for a byte that is not valid UTF-8 (the source pins no
  toolchain) -/
  jsonRaw : Bool

/-- The function `os.Create`: the file exists afterwards and is empty
(created or truncated); `none` on error, nothing changed. -/
def osCreate (env : Env) (fs : FS) (name : GoString) : Option FS :=
  if env.createErr then none
  else some (fun p => if p = name then some [] else fs p)

/-- The function `io.Copy` into the file just opened at `name`: all of `src`
is written, or, on error, the bytes written before the error stay. -/
def ioCopy (env : Env) (fs : FS) (name : GoString) (src : List UInt8) : FS × Bool :=
  match env.copyErr with
  | none => (fun p => if p = name then some src else fs p, true)
  | some n => (fun p => if p = name then some (src.take n) else fs p, false)

/-! ## `main.go` -/

/-- The package-level configuration variables. -/
structure Config where
  uploadPath : GoString
  publicURL : GoString
  apiKey : GoString
  port : GoString
deriving DecidableEq

/-- The constant `http.MethodPost`. -/
def MethodPost : GoString := str "POST"

/-- The function `getEnv` (defined in `main.go`, not called). -/
def getEnv (environ : GoString → Option GoString) (key fallback : GoString) : GoString :=
  match environ key with
  | some val => val
  | none => fallback

/-- The function `uploadHandler`, without its log lines: the response writer
and the storage when it returns. -/
def uploadHandler (cfg : Config) (env : Env) (fs : FS) (w : ResponseWriter) (r : Request) :
    ResponseWriter × FS :=
  if r.Method ≠ MethodPost then
    (httpError w (str "Only POST allowed") 405, fs)
  else if r.Header.Get (str "X-API-Key") ≠ cfg.apiKey then
    (httpError w (str "Authorised access only") 401, fs)
  else
    match r.FormFile (str "file") with
    | none => (httpError w (str "Failed to read file") 400, fs)
    | some (file, handler) =>
      let ext := Ext handler.Filename
      if ext = [] ∨ ext.length > 10 then
        (httpError w (str "File must have a valid extension") 415, fs)
      else
        let uniqueName := uuidString (uuidNew env.random) ++ ext
        let dstPath := Join [cfg.uploadPath, uniqueName]
        match osCreate env fs dstPath with
        | none => (httpError w (str "Failed to save file") 500, fs)
        | some fs1 =>
          match ioCopy env fs1 dstPath file with
          | (fs2, false) => (httpError w (str "Failed to write file") 500, fs2)
          | (fs2, true) =>
            let w1 := { w with header := w.header.Set (str "Content-Type") (str "application/json") }
            match jsonEncode env.jsonRaw w1 { URL := cfg.publicURL ++ uniqueName } with
            | (w2, false) => (httpError w2 (str "Failed to encode response") 500, fs2)
            | (w2, true) => (w2, fs2)

/-- The process environment: `os.LookupEnv`. -/
abbrev Environ := GoString → Option GoString

/-- The function `os.Getenv`: `""` for an unset variable. -/
def Getenv (environ : Environ) (key : GoString) : GoString := (environ key).getD []

/-- The initialisation of the package-level variables. -/
def loadConfig (environ : Environ) : Config :=
  { uploadPath := Getenv environ (str "UPLOAD_PATH"),
    publicURL := Getenv environ (str "PUBLIC_URL"),
    apiKey := Getenv environ (str "API_KEY"),
    port := Getenv environ (str "PORT") }

/-- What `main` has done when it stops or blocks: the routes registered with
`http.HandleFunc`, the address passed to `http.ListenAndServe` if it was
called, and the message of `log.Fatal` if the process was killed by it. -/
structure Process where
  routes : List GoString
  listenAddr : Option GoString
  fatal : Option GoString
deriving DecidableEq

/-- The function `main`.  `listenErr` tells whether `http.ListenAndServe`
returns (it only ever returns an error); otherwise the process keeps serving. -/
def main (environ : Environ) (listenErr : Bool) : Process :=
  let cfg := loadConfig environ
  if cfg.apiKey = [] then
    { routes := [], listenAddr := none,
      fatal := some (str "API_KEY environment variable is required") }
  else
    let routes := [str "/upload"]
    let addr := str ":" ++ cfg.port
    if listenErr then
      { routes := routes, listenAddr := some addr, fatal := some (str "Server failed") }
    else
      { routes := routes, listenAddr := some addr, fatal := none }

/-! ## The specification's wording, as definitions to compare the code with -/

/-- The status the specification prescribes: the first failing gate in the
order method, key, file field, extension, filesystem; 200 when none fails. -/
def specStatus (cfg : Config) (env : Env) (r : Request) : Nat :=
  if r.Method ≠ str "POST" then 405
  else if r.Header.Get (str "X-API-Key") ≠ cfg.apiKey then 401
  else
    match r.FormFile (str "file") with
    | none => 400
    | some (_, fh) =>
      if Ext fh.Filename = [] ∨ 10 < (Ext fh.Filename).length then 415
      else if env.createErr = true ∨ env.copyErr ≠ none then 500
      else 200

/-- The specification's description of the extension: the substring from the
last `.` of the name to its end, the dot included; empty when the name has no
`.`. -/
def lastDotSubstring : GoString → GoString
  | [] => []
  | c :: rest =>
    if dot ∈ rest then lastDotSubstring rest
    else if c = dot then c :: rest
    else []

/-- The value of a hexadecimal digit. -/
def hexVal (c : UInt8) : Option Nat :=
  if 0x30 ≤ c ∧ c ≤ 0x39 then some (c.toNat - 0x30)
  else if 0x61 ≤ c ∧ c ≤ 0x66 then some (c.toNat - 0x61 + 10)
  else if 0x41 ≤ c ∧ c ≤ 0x46 then some (c.toNat - 0x41 + 10)
  else none

/-- The number written by four hexadecimal digits. -/
def hex4 (a b c d : UInt8) : Option Nat :=
  match hexVal a, hexVal b, hexVal c, hexVal d with
  | some x, some y, some z, some t => some (((x * 16 + y) * 16 + z) * 16 + t)
  | _, _, _, _ => none

/-- The byte a two-character JSON escape stands for (RFC 8259, section 7). -/
def simpleEscape (e : UInt8) : Option UInt8 :=
  if e = 0x22 ∨ e = 0x5c ∨ e = 0x2f then some e
  else if e = 0x62 then some 0x08
  else if e = 0x66 then some 0x0c
  else if e = 0x6e then some 0x0a
  else if e = 0x72 then some 0x0d
  else if e = 0x74 then some 0x09
  else none

/-- The low surrogate written as an escape at the head of the input, if there
is one. -/
def lowSurrogateEscape : List UInt8 → Option Nat
  | b1 :: b2 :: l1 :: l2 :: l3 :: l4 :: _ =>
    match hex4 l1 l2 l3 l4 with
    | some lo => if b1 = 0x5c ∧ b2 = 0x75 ∧ 0xDC00 ≤ lo ∧ lo < 0xE000 then some lo else none
    | none => none
  | _ => none

/-- Decoding of a JSON string, as a client reading the response does it
(RFC 8259, section 7): the input starts after the opening quote; the result is
the decoded string, in UTF-8, and the input left after the closing quote.
Escapes are replaced by what they stand for, a pair of surrogate escapes by
the character it encodes, a lone surrogate escape by U+FFFD; all other bytes
are kept; control characters are not allowed.  Every iteration consumes at
least one byte, so as many iterations as the input has bytes suffice. -/
def jsonUnquoteLoop : Nat → List UInt8 → List UInt8 → Option (GoString × List UInt8)
  | 0, _, _ => none
  | _ + 1, [], _ => none
  | fuel + 1, c :: rest, acc =>
    if c = 0x22 then some (acc, rest)
    else if c = 0x5c then
      match rest with
      | [] => none
      | e :: rest1 =>
        if e = 0x75 then
          match rest1 with
          | h1 :: h2 :: h3 :: h4 :: rest2 =>
            match hex4 h1 h2 h3 h4 with
            | none => none
            | some hi =>
              if 0xD800 ≤ hi ∧ hi < 0xDC00 then
                match lowSurrogateEscape rest2 with
                | some lo =>
                  jsonUnquoteLoop fuel (rest2.drop 6)
                    (acc ++ EncodeRune (0x10000 + (hi - 0xD800) * 0x400 + (lo - 0xDC00)))
                | none => jsonUnquoteLoop fuel rest2 (acc ++ EncodeRune RuneError)
              else jsonUnquoteLoop fuel rest2 (acc ++ EncodeRune hi)
          | _ => none
        else
          match simpleEscape e with
          | some b => jsonUnquoteLoop fuel rest1 (acc ++ [b])
          | none => none
    else if c < 0x20 then none
    else jsonUnquoteLoop fuel rest (acc ++ [c])

/-- Removal of a literal at the head of the input. -/
def dropLiteral : List UInt8 → List UInt8 → Option (List UInt8)
  | [], s => some s
  | _ :: _, [] => none
  | a :: lit, b :: s => if a = b then dropLiteral lit s else none

/-- The decoded `url` member of a response body of the form the handler
writes: an object with the single member `url`, then a newline. -/
def decodeURL (body : List UInt8) : Option GoString :=
  match dropLiteral ([0x7b] ++ str "\"url\":\"") body with
  | none => none
  | some rest =>
    match jsonUnquoteLoop rest.length rest [] with
    | none => none
    | some (url, tail) => if tail = [0x7d, 0x0a] then some url else none

/-- The method `Part.FileName` of `mime/multipart` (Go 1.17 and later), which
produces `FileHeader.Filename` from the `filename` parameter the client sent
when the form is parsed from the request body. -/
def partFileName (filename : GoString) : GoString :=
  if filename = [] then [] else Base filename

/-! ## Concrete requests and settings used in the examples -/

/-- The configuration of the specification's examples. -/
def exampleConfig : Config :=
  { uploadPath := str "/srv/uploads", publicURL := str "https://cdn.example.com/",
    apiKey := str "secret123", port := str "8080" }

/-- A configuration with an empty API key, as the package variables are when
`API_KEY` is unset. -/
def emptyKeyConfig : Config :=
  { uploadPath := str "/srv/uploads", publicURL := str "https://cdn.example.com/",
    apiKey := [], port := str "8080" }

/-- A run in which nothing outside the handler fails; all random bytes zero. -/
def quietEnv : Env := { random := fun _ => 0, createErr := false, copyErr := none, jsonRaw := false }

/-- A run in which `os.Create` fails. -/
def createFailsEnv : Env := { random := fun _ => 0, createErr := true, copyErr := none, jsonRaw := false }

/-- The empty storage. -/
def emptyFS : FS := fun _ => none

/-- A header map holding only `X-Api-Key: key`. -/
def keyHeader (key : GoString) : Header :=
  fun k => if k = str "X-Api-Key" then [key] else []

/-- A form with one file `name` of content `bytes` under the field `file`. -/
def oneFile (name : GoString) (bytes : List UInt8) : Option (GoString → List FileHeader) :=
  some (fun k => if k = str "file" then [⟨name, bytes, false⟩] else [])

/-- The specification's first example: `photo.png` with the right key. -/
def photoRequest : Request := ⟨str "POST", keyHeader (str "secret123"), oneFile (str "photo.png") [0xFF, 0xD8]⟩

/-- A `GET` with a wrong key and no form. -/
def getWrongKey : Request := ⟨str "GET", keyHeader (str "wrong"), none⟩

/-- A `POST` with a wrong key and the extension-less file `archive`. -/
def postWrongKey : Request := ⟨str "POST", keyHeader (str "wrong"), oneFile (str "archive") [1, 2, 3]⟩

/-- A run in which `io.Copy` fails after one byte. -/
def copyFailsEnv : Env := { random := fun _ => 0, createErr := false, copyErr := some 1, jsonRaw := false }

/-- The file name `a.éééééé` in UTF-8: its extension has 7 characters and 13
bytes. -/
def accentName : GoString :=
  str "a." ++ [0xC3, 0xA9, 0xC3, 0xA9, 0xC3, 0xA9, 0xC3, 0xA9, 0xC3, 0xA9, 0xC3, 0xA9]

/-- A `POST` with the right key and a file named `a.éééééé`. -/
def accentRequest : Request := ⟨str "POST", keyHeader (str "secret123"), oneFile accentName [1, 2, 3]⟩

/-- A process environment that sets only `API_KEY=secret123`. -/
def exampleEnviron : Environ := fun k => if k = str "API_KEY" then some (str "secret123") else none

/-- A `POST` of `photo.png` without any header. -/
def noKeyRequest : Request := ⟨str "POST", fun _ => [], oneFile (str "photo.png") [0xFF, 0xD8]⟩

/-- The form `ParseMultipartForm` builds from a body whose only part is the
field `file` carrying the client's `filename` and `bytes`: a part without file
name is a plain value, not a file, and the name of a file goes through
`Part.FileName`. -/
def parsedForm (filename : GoString) (bytes : List UInt8) : Option (GoString → List FileHeader) :=
  if filename = [] then some (fun _ => [])
  else oneFile (partFileName filename) bytes

/-- A `POST` with the right key whose client sent the file name `a.b/c`. -/
def slashRequest : Request := ⟨str "POST", keyHeader (str "secret123"), parsedForm (str "a.b/c") [1, 2, 3]⟩

/-- A `POST` with the right key whose client sent the file name `x.png/`. -/
def trailingSlashRequest : Request := ⟨str "POST", keyHeader (str "secret123"), parsedForm (str "x.png/") [1, 2, 3]⟩

/-- A quiet run of a program built with the other `encoding/json`. -/
def quietEnvRaw : Env := { random := fun _ => 0, createErr := false, copyErr := none, jsonRaw := true }

/-- A second quiet run, with all random bytes one. -/
def quietEnvOne : Env := { random := fun _ => 1, createErr := false, copyErr := none, jsonRaw := false }

/-- A `POST` with the right key and a file named `a.` followed by the byte
`0x80`, which is not valid UTF-8. -/
def rawByteRequest : Request := ⟨str "POST", keyHeader (str "secret123"), oneFile [0x61, 0x2e, 0x80] [1, 2, 3]⟩

/-- A `POST` with the right key and the extension-less file `archive`. -/
def archiveRequest : Request := ⟨str "POST", keyHeader (str "secret123"), oneFile (str "archive") [1, 2, 3]⟩

/-! # Theorems -/

/-! ## Bytes -/

theorem byte_lt_iff (a b : UInt8) : a < b ↔ a.toNat < b.toNat := by
  rw [UInt8.lt_def]; rfl

theorem byte_le_iff (a b : UInt8) : a ≤ b ↔ a.toNat ≤ b.toNat := by
  rw [UInt8.le_def]; rfl

theorem ofNat_toNat (b : UInt8) : UInt8.ofNat b.toNat = b := by
  apply UInt8.ext
  show (BitVec.ofNat 8 b.toNat).toNat = b.toNat
  rw [BitVec.toNat_ofNat]
  exact Nat.mod_eq_of_lt b.toNat_lt

theorem forall_byte (P : UInt8 → Prop) (h : ∀ n : Fin 256, P (UInt8.ofNat n.val)) :
    ∀ b, P b := by
  intro b
  have := h ⟨b.toNat, b.toNat_lt⟩
  simpa [ofNat_toNat] using this

theorem toUInt8_toNat (n : Nat) : n.toUInt8.toNat = n % 256 := by
  show (BitVec.ofNat 8 n).toNat = n % 256
  rw [BitVec.toNat_ofNat]

/-! ## The response writer -/

theorem Write_status (w : ResponseWriter) (data : List UInt8) :
    (w.Write data).1.status = (if w.wroteHeader then w.status else 200)
      ∧ (w.Write data).1.wroteHeader = true := by
  unfold ResponseWriter.Write ResponseWriter.WriteHeader
  cases hw : w.wroteHeader <;> cases he : w.writeErr <;> simp [hw, he]

theorem httpError_status (w : ResponseWriter) (msg : GoString) (code : Nat) :
    (httpError w msg code).status = if w.wroteHeader then w.status else code := by
  unfold httpError
  simp only [Write_status]
  unfold ResponseWriter.WriteHeader
  cases hw : w.wroteHeader <;> simp [hw]

theorem Header_get_set (h : Header) (key value : GoString) :
    (h.Set key value).Get key = value := by
  simp [Header.Get, Header.Set]

theorem MethodPost_eq : MethodPost = str "POST" := rfl

/-! ## The paths through `uploadHandler` -/

theorem handler_not_post (cfg : Config) (env : Env) (fs : FS) (w : ResponseWriter)
    (r : Request) (hm : r.Method ≠ MethodPost) :
    uploadHandler cfg env fs w r = (httpError w (str "Only POST allowed") 405, fs) := by
  unfold uploadHandler
  rw [if_pos hm]

theorem handler_bad_key (cfg : Config) (env : Env) (fs : FS) (w : ResponseWriter)
    (r : Request) (hm : r.Method = MethodPost)
    (hk : r.Header.Get (str "X-API-Key") ≠ cfg.apiKey) :
    uploadHandler cfg env fs w r = (httpError w (str "Authorised access only") 401, fs) := by
  unfold uploadHandler
  rw [if_neg (not_not.mpr hm), if_pos hk]

theorem handler_no_file (cfg : Config) (env : Env) (fs : FS) (w : ResponseWriter)
    (r : Request) (hm : r.Method = MethodPost)
    (hk : r.Header.Get (str "X-API-Key") = cfg.apiKey)
    (hf : r.FormFile (str "file") = none) :
    uploadHandler cfg env fs w r = (httpError w (str "Failed to read file") 400, fs) := by
  unfold uploadHandler
  rw [if_neg (not_not.mpr hm), if_neg (not_not.mpr hk), hf]

theorem handler_bad_ext (cfg : Config) (env : Env) (fs : FS) (w : ResponseWriter)
    (r : Request) (file : List UInt8) (fh : FileHeader) (hm : r.Method = MethodPost)
    (hk : r.Header.Get (str "X-API-Key") = cfg.apiKey)
    (hf : r.FormFile (str "file") = some (file, fh))
    (he : Ext fh.Filename = [] ∨ (Ext fh.Filename).length > 10) :
    uploadHandler cfg env fs w r
      = (httpError w (str "File must have a valid extension") 415, fs) := by
  unfold uploadHandler
  rw [if_neg (not_not.mpr hm), if_neg (not_not.mpr hk), hf]
  simp only []
  rw [if_pos he]

/-- On the path where every gate passes and the file is created and copied,
the storage is the old one with the upload at the destination path, and the
response is what `Encode` (and `http.Error` after a failed write) leaves. -/
theorem handler_stored (cfg : Config) (env : Env) (fs : FS) (w : ResponseWriter)
    (r : Request) (file : List UInt8) (fh : FileHeader) (hm : r.Method = MethodPost)
    (hk : r.Header.Get (str "X-API-Key") = cfg.apiKey)
    (hf : r.FormFile (str "file") = some (file, fh))
    (he : ¬(Ext fh.Filename = [] ∨ (Ext fh.Filename).length > 10))
    (hc : env.createErr = false) (hcp : env.copyErr = none) :
    (uploadHandler cfg env fs w r).2
        = (fun p => if p = Join [cfg.uploadPath, uuidString (uuidNew env.random) ++ Ext fh.Filename]
            then some file else fs p)
      ∧ (uploadHandler cfg env fs w r).1
        = (let e := jsonEncode env.jsonRaw
              { w with header := w.header.Set (str "Content-Type") (str "application/json") }
              { URL := cfg.publicURL ++ (uuidString (uuidNew env.random) ++ Ext fh.Filename) }
           if e.2 then e.1 else httpError e.1 (str "Failed to encode response") 500) := by
  unfold uploadHandler
  rw [if_neg (not_not.mpr hm), if_neg (not_not.mpr hk), hf]
  simp only []
  rw [if_neg he]
  simp only [osCreate, hc, ioCopy, hcp, Bool.false_eq_true, if_false]
  generalize jsonEncode _ _ _ = e
  obtain ⟨w2, ok⟩ := e
  cases ok
  · refine ⟨?_, by simp⟩
    funext p
    by_cases hp : p = Join [cfg.uploadPath, uuidString (uuidNew env.random) ++ Ext fh.Filename]
      <;> simp [hp]
  · refine ⟨?_, by simp⟩
    funext p
    by_cases hp : p = Join [cfg.uploadPath, uuidString (uuidNew env.random) ++ Ext fh.Filename]
      <;> simp [hp]

/-! ## `filepath.Ext` -/

theorem sep_ne_dot : Separator ≠ dot := by decide

theorem extLoop_takeWhile (r acc : List UInt8) :
    extLoop r acc = extLoop (r.takeWhile (fun b => !IsPathSeparator b)) acc := by
  induction r generalizing acc with
  | nil => rfl
  | cons c r ih =>
    by_cases hs : IsPathSeparator c = true
    · simp [extLoop, List.takeWhile, hs]
    · simp only [Bool.not_eq_true] at hs
      by_cases hd : c = dot
      · simp [extLoop, List.takeWhile, hs, hd]
      · simp only [extLoop, List.takeWhile, hs, hd, Bool.not_false, if_false]
        exact ih _
        
theorem lastDotSubstring_no_dot (l : GoString) (h : dot ∉ l) : lastDotSubstring l = [] := by
  induction l with
  | nil => rfl
  | cons c l ih =>
    simp only [List.mem_cons, not_or] at h
    have h1 : ¬ c = dot := fun e => h.1 e.symm
    simp [lastDotSubstring, h.2, h1]

theorem lastDotSubstring_append_dot (l acc : GoString) (h : dot ∉ acc) :
    lastDotSubstring (l ++ dot :: acc) = dot :: acc := by
  induction l with
  | nil => simp [lastDotSubstring, h]
  | cons c l ih => simp [lastDotSubstring, ih]

theorem extLoop_no_sep (r : List UInt8) (hr : ∀ b ∈ r, IsPathSeparator b = false) :
    ∀ acc : List UInt8, dot ∉ acc → extLoop r acc = lastDotSubstring (r.reverse ++ acc) := by
  induction r with
  | nil =>
    intro acc hacc
    simp [extLoop, lastDotSubstring_no_dot acc hacc]
  | cons c r ih =>
    intro acc hacc
    have hc : IsPathSeparator c = false := hr c (List.mem_cons_self _ _)
    have hr2 : ∀ b ∈ r, IsPathSeparator b = false := fun b hb => hr b (List.mem_cons_of_mem _ hb)
    by_cases hd : c = dot
    · subst hd
      simp [extLoop, hc, lastDotSubstring_append_dot _ _ hacc]
    · have hacc2 : dot ∉ c :: acc := by
        simp only [List.mem_cons, not_or]
        exact ⟨fun e => hd e.symm, hacc⟩
      simp only [extLoop, hc, hd, if_false, Bool.false_eq_true]
      rw [ih hr2 _ hacc2]
      simp

/-- The extension is the substring from the last dot of the final path
element. -/
theorem Ext_eq_lastDot_lastElement (path : GoString) :
    Ext path = lastDotSubstring (lastElement path) := by
  unfold Ext lastElement
  rw [extLoop_takeWhile]
  rw [extLoop_no_sep _ _ [] (by simp)]
  · simp
  · intro b hb
    have := List.mem_takeWhile_imp hb
    simpa using this

theorem lastElement_no_sep (path : GoString) (h : Separator ∉ path) : lastElement path = path := by
  unfold lastElement
  rw [List.takeWhile_eq_self_iff.mpr]
  · simp
  · intro b hb
    have hb2 : b ∈ path := by simpa using hb
    have : b ≠ Separator := fun e => h (e ▸ hb2)
    simp [IsPathSeparator, this]

theorem lastElement_sep_free (path : GoString) : Separator ∉ lastElement path := by
  unfold lastElement
  intro h
  have h2 : Separator ∈ path.reverse.takeWhile (fun b => !IsPathSeparator b) := by
    simpa using h
  have := List.mem_takeWhile_imp h2
  simp [IsPathSeparator] at this

/-- On the name the multipart parser hands over, the extension is the
substring from the last dot of the whole name. -/
theorem Ext_partFileName (filename : GoString) :
    Ext (partFileName filename) = lastDotSubstring (partFileName filename) := by
  unfold partFileName
  by_cases h0 : filename = []
  · rw [if_pos h0]; rfl
  · rw [if_neg h0]
    unfold Base
    rw [if_neg h0]
    simp only []
    by_cases hp : lastElement (stripTrailingSeparators filename) = []
    · rw [if_pos hp]; decide
    · rw [if_neg hp, Ext_eq_lastDot_lastElement,
        lastElement_no_sep _ (lastElement_sep_free _)]

theorem Ext_no_sep (path : GoString) : Separator ∉ Ext path := by
  have key : ∀ (r acc : List UInt8), Separator ∉ acc → Separator ∉ extLoop r acc := by
    intro r
    induction r with
    | nil => intro acc _; simp [extLoop]
    | cons c r ih =>
      intro acc hacc
      by_cases hs : IsPathSeparator c = true
      · simp [extLoop, hs]
      · simp only [Bool.not_eq_true] at hs
        have hcs : c ≠ Separator := by
          intro e; rw [e] at hs; simp [IsPathSeparator] at hs
        have hacc2 : Separator ∉ c :: acc := by
          simp only [List.mem_cons, not_or]
          exact ⟨fun e => hcs e.symm, hacc⟩
        by_cases hd : c = dot
        · have : extLoop (c :: r) acc = c :: acc := by
            unfold extLoop
            rw [if_neg (by simp [hs]), if_pos hd]
          rw [this]; exact hacc2
        · simp only [extLoop, hs, hd, if_false, Bool.false_eq_true]
          exact ih _ hacc2
  exact key _ _ (by simp)

/-! ## `filepath.Clean` -/

theorem cleanLoop_succ (rooted : Bool) (fuel : Nat) (st : CleanState) (c : UInt8)
    (rest : List UInt8) :
    cleanLoop rooted (fuel + 1) st (c :: rest)
      = cleanLoop rooted fuel (cleanNextState rooted st (c :: rest)) (cleanNextRest (c :: rest)) := by
  rw [cleanLoop]
  simp only [cleanNextState, cleanNextRest]
  split_ifs <;> rfl

theorem cleanNextRest_length (c : UInt8) (rest : List UInt8) :
    (cleanNextRest (c :: rest)).length ≤ rest.length := by
  simp only [cleanNextRest]
  split_ifs with h1 h2 h3
  · exact le_refl _
  · exact le_refl _
  · simp
  · have hc : IsPathSeparator c = false := by simpa using h1
    simp only [List.dropWhile, hc, Bool.not_false]
    exact (List.dropWhile_sublist _).length_le

theorem cleanLoop_fuel (rooted : Bool) :
    ∀ (f1 f2 : Nat) (st : CleanState) (rest : List UInt8),
      rest.length ≤ f1 → rest.length ≤ f2 →
      cleanLoop rooted f1 st rest = cleanLoop rooted f2 st rest := by
  intro f1
  induction f1 with
  | zero =>
    intro f2 st rest h1 _
    have : rest = [] := List.length_eq_zero.mp (Nat.le_zero.mp h1)
    subst this
    cases f2 <;> simp [cleanLoop]
  | succ k ih =>
    intro f2 st rest h1 h2
    cases rest with
    | nil => cases f2 <;> simp [cleanLoop]
    | cons c r =>
      cases f2 with
      | zero => simp at h2
      | succ m =>
        rw [cleanLoop_succ, cleanLoop_succ]
        have := cleanNextRest_length c r
        simp only [List.length_cons] at h1 h2
        exact ih m _ _ (by omega) (by omega)

theorem atDot_append (c : UInt8) (rest q : List UInt8) :
    atDot (c :: (rest ++ Separator :: q)) = atDot (c :: rest) := by
  cases rest with
  | nil => simp [atDot, IsPathSeparator]
  | cons d r => simp [atDot]

theorem atDotDot_append (c : UInt8) (rest q : List UInt8) :
    atDotDot (c :: (rest ++ Separator :: q)) = atDotDot (c :: rest) := by
  cases rest with
  | nil =>
    cases q with
    | nil => simp [atDotDot]; intro _; exact sep_ne_dot
    | cons e q => simp [atDotDot]; intro _ h; exact absurd h sep_ne_dot
  | cons d r =>
    cases r with
    | nil => simp [atDotDot, IsPathSeparator]
    | cons e r => simp [atDotDot]

theorem takeWhile_append_stop (p : UInt8 → Bool) (l q : List UInt8) (x : UInt8)
    (hx : p x = false) : (l ++ x :: q).takeWhile p = l.takeWhile p := by
  induction l with
  | nil => simp [List.takeWhile, hx]
  | cons a l ih =>
    by_cases ha : p a = true
    · simp [List.takeWhile, ha, ih]
    · simp [List.takeWhile, ha]

theorem dropWhile_append_stop (p : UInt8 → Bool) (l q : List UInt8) (x : UInt8)
    (hx : p x = false) : (l ++ x :: q).dropWhile p = l.dropWhile p ++ x :: q := by
  induction l with
  | nil => simp [List.dropWhile, hx]
  | cons a l ih =>
    by_cases ha : p a = true
    · simp [List.dropWhile, ha, ih]
    · simp [List.dropWhile, ha]

theorem atDotDot_rest_ne_nil (c : UInt8) (rest : List UInt8) (h : atDotDot (c :: rest) = true) :
    rest ≠ [] := by
  intro e; subst e; simp [atDotDot] at h

theorem cleanNext_append (rooted : Bool) (st : CleanState) (c : UInt8) (rest q : List UInt8) :
    cleanNextState rooted st (c :: (rest ++ Separator :: q)) = cleanNextState rooted st (c :: rest)
    ∧ cleanNextRest (c :: (rest ++ Separator :: q))
        = cleanNextRest (c :: rest) ++ Separator :: q := by
  have hsep : (fun b => !IsPathSeparator b) Separator = false := by simp [IsPathSeparator]
  have htw := takeWhile_append_stop (fun b => !IsPathSeparator b) (c :: rest) q Separator hsep
  have hdw := dropWhile_append_stop (fun b => !IsPathSeparator b) (c :: rest) q Separator hsep
  simp only [List.cons_append] at htw hdw
  simp only [cleanNextState, cleanNextRest]
  rw [atDot_append, atDotDot_append, htw, hdw]
  by_cases h1 : IsPathSeparator c = true
  · simp [h1]
  · by_cases h2 : atDot (c :: rest) = true
    · simp [h1, h2]
    · by_cases h3 : atDotDot (c :: rest) = true
      · have hne := atDotDot_rest_ne_nil c rest h3
        simp only [h1, h2, h3, if_true, if_false, true_and]
        cases rest with
        | nil => exact absurd rfl hne
        | cons d r => simp
      · simp [h1, h2, h3]

/-- The loop of `Clean` over `p ++ "/" ++ q` first does what it does over `p`
alone, then goes on with `"/" ++ q`. -/
theorem cleanLoop_append (rooted : Bool) (q : List UInt8) :
    ∀ (n : Nat) (p : List UInt8) (st : CleanState), p.length ≤ n →
      cleanLoop rooted (p ++ Separator :: q).length st (p ++ Separator :: q)
        = cleanLoop rooted (Separator :: q).length (cleanLoop rooted p.length st p)
            (Separator :: q) := by
  intro n
  induction n with
  | zero =>
    intro p st hp
    have : p = [] := List.length_eq_zero.mp (Nat.le_zero.mp hp)
    subst this
    simp [cleanLoop]
  | succ k ih =>
    intro p st hp
    cases p with
    | nil => simp [cleanLoop]
    | cons c rest =>
      have hlen := cleanNextRest_length c rest
      simp only [List.length_cons] at hp
      rw [List.cons_append, List.length_cons, cleanLoop_succ, (cleanNext_append rooted st c rest q).1,
        (cleanNext_append rooted st c rest q).2]
      rw [cleanLoop_fuel rooted _ (cleanNextRest (c :: rest) ++ Separator :: q).length _ _
        (by simp; omega) (le_refl _)]
      rw [ih _ _ (by omega)]
      congr 1
      rw [List.length_cons, cleanLoop_succ]
      exact cleanLoop_fuel rooted _ _ _ _ (le_refl _) hlen

theorem cleanLoop_nil (rooted : Bool) (fuel : Nat) (st : CleanState) :
    cleanLoop rooted fuel st [] = st := by
  cases fuel <;> simp [cleanLoop]

theorem backtrack_ge (buf : List UInt8) (dd : Nat) :
    ∀ w, dd ≤ w → dd ≤ backtrack buf dd w ∧ backtrack buf dd w ≤ w := by
  intro w
  induction w with
  | zero => intro h; simp [backtrack] at *; exact h
  | succ w ih =>
    intro h
    simp only [backtrack]
    split_ifs with hc
    · have := ih (by omega)
      omega
    · omega

/-- While cleaning a rooted path the output always starts with the separator
and `dotdot` stays 1. -/
theorem head_sepIfNeeded (b : Bool) (o : UInt8) (os tw : List UInt8) :
    ((if b = true then (o :: os) ++ [Separator] else o :: os) ++ tw).head? = some o := by
  cases b <;> simp

theorem cleanNextState_rooted (st : CleanState) (path : List UInt8)
    (h : st.dotdot = 1 ∧ st.out.head? = some Separator) :
    (cleanNextState true st path).dotdot = 1
      ∧ (cleanNextState true st path).out.head? = some Separator := by
  obtain ⟨hd, hh⟩ := h
  cases hout : st.out with
  | nil => rw [hout] at hh; simp at hh
  | cons o os =>
    rw [hout] at hh
    have ho : o = Separator := by simpa using hh
    have hst : st.out.head? = some Separator := by rw [hout]; exact hh
    cases path with
    | nil => exact ⟨hd, hst⟩
    | cons c rest =>
      simp only [cleanNextState]
      by_cases h1 : IsPathSeparator c = true
      · rw [if_pos h1]; exact ⟨hd, hst⟩
      · rw [if_neg h1]
        by_cases h2 : atDot (c :: rest) = true
        · rw [if_pos h2]; exact ⟨hd, hst⟩
        · rw [if_neg h2]
          by_cases h3 : atDotDot (c :: rest) = true
          · rw [if_pos h3]
            by_cases h4 : st.out.length > st.dotdot
            · have hb := backtrack_ge st.out st.dotdot (st.out.length - 1) (by omega)
              rw [if_pos h4]
              refine ⟨hd, ?_⟩
              cases hw : backtrack st.out st.dotdot (st.out.length - 1) with
              | zero => rw [hw, hd] at hb; omega
              | succ w => simp [hout, ho]
            · rw [if_neg h4, if_neg (by simp)]; exact ⟨hd, hst⟩
          · rw [if_neg h3]
            refine ⟨hd, ?_⟩
            simp only [hout]
            rw [head_sepIfNeeded, ho]

theorem cleanLoop_rooted (fuel : Nat) :
    ∀ (st : CleanState) (path : List UInt8),
      st.dotdot = 1 ∧ st.out.head? = some Separator →
      (cleanLoop true fuel st path).dotdot = 1
        ∧ (cleanLoop true fuel st path).out.head? = some Separator := by
  induction fuel with
  | zero => intro st path h; simpa [cleanLoop] using h
  | succ k ih =>
    intro st path h
    cases path with
    | nil => simpa [cleanLoop] using h
    | cons c rest =>
      rw [cleanLoop_succ]
      exact ih _ _ (cleanNextState_rooted st _ h)

/-- One iteration of the loop of `Clean` on a last element that is a plain
name: the separator is added if needed and the name is copied. -/
theorem cleanNext_name (rooted : Bool) (st : CleanState) (name : List UInt8)
    (h0 : name ≠ []) (hs : Separator ∉ name) (h1 : name ≠ [dot]) (h2 : name ≠ [dot, dot]) :
    cleanNextState rooted st name
        = { st with out :=
            (if (rooted && st.out.length != 1) || (!rooted && st.out.length != 0)
              then st.out ++ [Separator] else st.out) ++ name }
      ∧ cleanNextRest name = [] := by
  have hall : ∀ b ∈ name, (fun b => !IsPathSeparator b) b = true := by
    intro b hb
    have : b ≠ Separator := fun e => hs (e ▸ hb)
    simp [IsPathSeparator, this]
  have htw : name.takeWhile (fun b => !IsPathSeparator b) = name :=
    List.takeWhile_eq_self_iff.mpr hall
  have hdw : name.dropWhile (fun b => !IsPathSeparator b) = [] :=
    List.dropWhile_eq_nil_iff.mpr hall
  cases name with
  | nil => exact absurd rfl h0
  | cons c t =>
    have hc : IsPathSeparator c = false := by
      have := hall c (List.mem_cons_self _ _)
      simpa using this
    have hdot : atDot (c :: t) = false := by
      cases t with
      | nil =>
        have : c ≠ dot := fun e => h1 (by rw [e])
        simp [atDot, this]
      | cons d t' =>
        have hd := hall d (by simp)
        have hd' : IsPathSeparator d = false := by simpa using hd
        simp [atDot, hd']
    have hdd : atDotDot (c :: t) = false := by
      cases t with
      | nil => simp [atDotDot]
      | cons d t' =>
        cases t' with
        | nil =>
          have : ¬(c = dot ∧ d = dot) := fun ⟨e1, e2⟩ => h2 (by rw [e1, e2])
          simpa [atDotDot] using this
        | cons e t'' =>
          have he := hall e (by simp)
          have he' : IsPathSeparator e = false := by simpa using he
          simp [atDotDot, he']
    simp only [cleanNextState, cleanNextRest, hc, hdot, hdd, htw, hdw, Bool.false_eq_true,
      if_false, and_self]

theorem Clean_unrooted (c : UInt8) (t : List UInt8) (hr : IsPathSeparator c = false) :
    Clean (c :: t)
      = if (cleanLoop false (c :: t).length ⟨[], 0⟩ (c :: t)).out.length = 0 then [dot]
        else (cleanLoop false (c :: t).length ⟨[], 0⟩ (c :: t)).out := by
  simp only [Clean, hr, Bool.false_eq_true, if_false]

theorem Clean_rooted (c : UInt8) (t : List UInt8) (hr : IsPathSeparator c = true) :
    Clean (c :: t)
      = if (cleanLoop true t.length ⟨[Separator], 1⟩ t).out.length = 0 then [dot]
        else (cleanLoop true t.length ⟨[Separator], 1⟩ t).out := by
  simp only [Clean, hr, if_true, List.drop_one, List.tail_cons]

theorem cleanLoop_plain (rooted : Bool) (st : CleanState) (name : GoString) (h0 : name ≠ [])
    (hs : Separator ∉ name) (h1 : name ≠ [dot]) (h2 : name ≠ [dot, dot]) :
    cleanLoop rooted name.length st name
      = { st with out :=
          (if (rooted && st.out.length != 1) || (!rooted && st.out.length != 0)
            then st.out ++ [Separator] else st.out) ++ name } := by
  obtain ⟨e1, e2⟩ := cleanNext_name rooted st name h0 hs h1 h2
  cases name with
  | nil => exact absurd rfl h0
  | cons c t => rw [List.length_cons, cleanLoop_succ, e1, e2, cleanLoop_nil]

theorem cleanLoop_sep_plain (rooted : Bool) (st : CleanState) (name : GoString) (h0 : name ≠ [])
    (hs : Separator ∉ name) (h1 : name ≠ [dot]) (h2 : name ≠ [dot, dot]) :
    cleanLoop rooted (Separator :: name).length st (Separator :: name)
      = { st with out :=
          (if (rooted && st.out.length != 1) || (!rooted && st.out.length != 0)
            then st.out ++ [Separator] else st.out) ++ name } := by
  rw [List.length_cons, cleanLoop_succ]
  have e1 : cleanNextState rooted st (Separator :: name) = st := by
    simp [cleanNextState, IsPathSeparator]
  have e2 : cleanNextRest (Separator :: name) = name := by
    simp [cleanNextRest, IsPathSeparator]
  rw [e1, e2]
  exact cleanLoop_plain rooted st name h0 hs h1 h2

/-- The destination of a plain name: `Join(dir, name)` is a fixed string that
depends on `dir` only, followed by the name; that string is empty when the
cleaned directory is `.`, is `/` when it is `/`, and otherwise is the cleaned
directory followed by one separator. -/
theorem Join_plain_name (dir : GoString) :
    ∃ pre : GoString,
      ((pre = [] ∧ Clean dir = [dot]) ∨ (pre = [Separator] ∧ Clean dir = [Separator])
        ∨ pre = Clean dir ++ [Separator])
      ∧ ∀ name : GoString, name ≠ [] → Separator ∉ name → name ≠ [dot] → name ≠ [dot, dot] →
          Join [dir, name] = pre ++ name := by
  cases dir with
  | nil =>
    refine ⟨[], Or.inl ⟨rfl, rfl⟩, ?_⟩
    intro name h0 hs h1 h2
    cases name with
    | nil => exact absurd rfl h0
    | cons c t =>
      have hc : IsPathSeparator c = false := by
        have : c ≠ Separator := fun e => hs (by rw [e]; simp)
        simp [IsPathSeparator, this]
      have e : Join [[], c :: t] = Clean (c :: t) := by simp [Join, stringsJoin]
      rw [e, Clean_unrooted c t hc, cleanLoop_plain false ⟨[], 0⟩ (c :: t) h0 hs h1 h2]
      simp
  | cons c t =>
    cases hr : IsPathSeparator c with
    | false =>
      rw [Clean_unrooted c t hr]
      generalize hstp : cleanLoop false (c :: t).length ⟨[], 0⟩ (c :: t) = stp
      refine ⟨if stp.out.length = 0 then [] else stp.out ++ [Separator], ?_, ?_⟩
      · by_cases hz : stp.out.length = 0
        · left; simp [hz]
        · right; right; simp [hz]
      · intro name h0 hs h1 h2
        have e : Join [c :: t, name] = Clean (c :: (t ++ Separator :: name)) := by
          simp [Join, stringsJoin]
        rw [e, Clean_unrooted _ _ hr]
        have := cleanLoop_append false name (c :: t).length (c :: t) ⟨[], 0⟩ (le_refl _)
        rw [List.cons_append, hstp] at this
        rw [this, cleanLoop_sep_plain false stp name h0 hs h1 h2]
        cases hout : stp.out with
        | nil => simp [h0]
        | cons o os => simp
    | true =>
      rw [Clean_rooted c t hr]
      obtain ⟨hdd, hhead⟩ := cleanLoop_rooted t.length ⟨[Separator], 1⟩ t ⟨rfl, rfl⟩
      generalize hstp : cleanLoop true t.length ⟨[Separator], 1⟩ t = stp at hdd hhead
      refine ⟨if stp.out.length = 1 then stp.out else stp.out ++ [Separator], ?_, ?_⟩
      · cases hout : stp.out with
        | nil => rw [hout] at hhead; simp at hhead
        | cons o os =>
          rw [hout] at hhead
          have ho : o = Separator := by simpa using hhead
          subst ho
          cases os with
          | nil => right; left; simp
          | cons o2 os2 => right; right; simp
      · intro name h0 hs h1 h2
        have e : Join [c :: t, name] = Clean (c :: (t ++ Separator :: name)) := by
          simp [Join, stringsJoin]
        rw [e, Clean_rooted _ _ hr]
        have := cleanLoop_append true name t.length t ⟨[Separator], 1⟩ (le_refl _)
        rw [hstp] at this
        rw [this, cleanLoop_sep_plain true stp name h0 hs h1 h2]
        cases hout : stp.out with
        | nil => rw [hout] at hhead; simp at hhead
        | cons o os =>
          cases os with
          | nil => simp
          | cons o2 os2 => simp

/-! ## UUID strings -/

theorem hexEncode_length (l : List UInt8) : (hexEncode l).length = 2 * l.length := by
  induction l with
  | nil => rfl
  | cons v l ih => simp only [hexEncode, List.length_cons, ih]; omega

set_option maxRecDepth 100000 in
theorem hextable_ne_sep :
    ∀ v : UInt8, hextable (v >>> 4).toNat ≠ Separator ∧ hextable (v &&& 0x0f).toNat ≠ Separator := by
  apply forall_byte
  decide

theorem hexEncode_no_sep (l : List UInt8) : Separator ∉ hexEncode l := by
  induction l with
  | nil => simp [hexEncode]
  | cons v l ih =>
    simp only [hexEncode, List.mem_cons, not_or]
    exact ⟨fun e => (hextable_ne_sep v).1 e.symm, fun e => (hextable_ne_sep v).2 e.symm, ih⟩

theorem uuidNew_length (random : Fin 16 → UInt8) : (uuidNew random).length = 16 := by
  simp [uuidNew]

theorem uuidString_length (uuid : List UInt8) (h : uuid.length = 16) :
    (uuidString uuid).length = 36 := by
  simp only [uuidString, List.length_append, hexEncode_length, List.length_take,
    List.length_drop, List.length_cons, List.length_nil, h]
  rfl

theorem uuidString_no_sep (uuid : List UInt8) : Separator ∉ uuidString uuid := by
  have h2d : Separator ≠ (0x2d : UInt8) := by decide
  simp only [uuidString, List.mem_append, List.mem_singleton, not_or]
  exact ⟨⟨⟨⟨⟨⟨⟨⟨hexEncode_no_sep _, h2d⟩, hexEncode_no_sep _⟩, h2d⟩, hexEncode_no_sep _⟩, h2d⟩,
    hexEncode_no_sep _⟩, h2d⟩, hexEncode_no_sep _⟩

/-- The stored file name is a plain name: not empty, without separator, and
neither `.` nor `..`. -/
theorem uniqueName_plain (random : Fin 16 → UInt8) (filename : GoString) :
    uuidString (uuidNew random) ++ Ext filename ≠ []
    ∧ Separator ∉ uuidString (uuidNew random) ++ Ext filename
    ∧ uuidString (uuidNew random) ++ Ext filename ≠ [dot]
    ∧ uuidString (uuidNew random) ++ Ext filename ≠ [dot, dot] := by
  have hlen : (uuidString (uuidNew random) ++ Ext filename).length ≥ 36 := by
    rw [List.length_append, uuidString_length _ (uuidNew_length random)]
    omega
  refine ⟨?_, ?_, ?_, ?_⟩
  · intro e; rw [e] at hlen; simp at hlen
  · simp only [List.mem_append, not_or]
    exact ⟨uuidString_no_sep _, Ext_no_sep _⟩
  · intro e; rw [e] at hlen; simp at hlen
  · intro e; rw [e] at hlen; simp at hlen

/-! ## `filepath.Base` -/

theorem Base_append_plain (pre name : GoString) (hpre : pre = [] ∨ ∃ x, pre = x ++ [Separator])
    (h0 : name ≠ []) (hs : Separator ∉ name) : Base (pre ++ name) = name := by
  have hall : ∀ b ∈ name.reverse, (fun b => !IsPathSeparator b) b = true := by
    intro b hb
    have hb2 : b ∈ name := by simpa using hb
    have : b ≠ Separator := fun e => hs (e ▸ hb2)
    simp [IsPathSeparator, this]
  obtain ⟨c, t, hrev⟩ : ∃ c t, name.reverse = c :: t := by
    cases h : name.reverse with
    | nil => exact absurd (List.reverse_eq_nil_iff.mp h) h0
    | cons c t => exact ⟨c, t, rfl⟩
  have hc : IsPathSeparator c = false := by
    have := hall c (by rw [hrev]; simp)
    simpa using this
  have hstrip : stripTrailingSeparators (pre ++ name) = pre ++ name := by
    unfold stripTrailingSeparators
    rw [List.reverse_append, hrev]
    have hn : name = (c :: t).reverse := by rw [← hrev, List.reverse_reverse]
    simp only [List.cons_append, List.dropWhile, hc]
    rw [hn]
    simp
  have hlast : lastElement (pre ++ name) = name := by
    unfold lastElement
    rw [List.reverse_append]
    rcases hpre with rfl | ⟨x, rfl⟩
    · simp only [List.reverse_nil, List.append_nil]
      rw [List.takeWhile_eq_self_iff.mpr hall, List.reverse_reverse]
    · have : (x ++ [Separator]).reverse = Separator :: x.reverse := by simp
      rw [this, takeWhile_append_stop _ _ _ _ (by simp [IsPathSeparator]),
        List.takeWhile_eq_self_iff.mpr hall, List.reverse_reverse]
  unfold Base
  have hne : pre ++ name ≠ [] := by simp [h0]
  simp only [hne, if_false, hstrip, hlast, h0]

/-! ## The status and the writes of `uploadHandler` -/

theorem uploadHandler_status (cfg : Config) (env : Env) (fs : FS) (writeErr : Bool)
    (r : Request) :
    (uploadHandler cfg env fs (newResponseWriter writeErr) r).1.status = specStatus cfg env r := by
  unfold uploadHandler specStatus
  rw [MethodPost_eq]
  by_cases hm : r.Method = str "POST"
  · by_cases hk : r.Header.Get (str "X-API-Key") = cfg.apiKey
    · simp only [hm, hk, ne_eq, not_true_eq_false, if_false]
      cases hf : r.FormFile (str "file") with
      | none => simp [httpError_status, newResponseWriter]
      | some p =>
        obtain ⟨file, fh⟩ := p
        simp only []
        by_cases he : Ext fh.Filename = [] ∨ (Ext fh.Filename).length > 10
        · rw [if_pos he, if_pos he]; simp [httpError_status, newResponseWriter]
        · rw [if_neg he, if_neg he]
          cases hc : env.createErr with
          | true => simp [osCreate, hc, httpError_status, newResponseWriter]
          | false =>
            cases hcp : env.copyErr with
            | some n => simp [osCreate, hc, ioCopy, hcp, httpError_status, newResponseWriter]
            | none =>
              simp only [osCreate, hc, ioCopy, hcp, jsonEncode]
              cases writeErr <;>
                simp [ResponseWriter.Write, ResponseWriter.WriteHeader, newResponseWriter,
                  httpError_status]
    · simp [hm, hk, httpError_status, newResponseWriter]
  · simp [hm, httpError_status, newResponseWriter]

/-- A response status of 200 means that every gate was passed and that the
file was created and copied. -/
theorem status_200 (cfg : Config) (env : Env) (fs : FS) (writeErr : Bool) (r : Request)
    (file : List UInt8) (fh : FileHeader) (hf : r.FormFile (str "file") = some (file, fh))
    (h : (uploadHandler cfg env fs (newResponseWriter writeErr) r).1.status = 200) :
    r.Method = MethodPost ∧ r.Header.Get (str "X-API-Key") = cfg.apiKey
      ∧ ¬(Ext fh.Filename = [] ∨ (Ext fh.Filename).length > 10)
      ∧ env.createErr = false ∧ env.copyErr = none := by
  rw [uploadHandler_status] at h
  unfold specStatus at h
  rw [hf] at h
  simp only [] at h
  by_cases hm : r.Method = str "POST"
  · by_cases hk : r.Header.Get (str "X-API-Key") = cfg.apiKey
    · by_cases he : Ext fh.Filename = [] ∨ 10 < (Ext fh.Filename).length
      · simp [hm, hk, he] at h
      · by_cases hc : env.createErr = true ∨ env.copyErr ≠ none
        · simp [hm, hk, he, hc] at h
        · simp only [not_or, Bool.not_eq_true, ne_eq, not_not] at hc
          exact ⟨hm, hk, he, hc.1, hc.2⟩
    · simp [hm, hk] at h
  · simp [hm] at h

/-- The handler changes the storage at the destination path only. -/
theorem handler_writes (cfg : Config) (env : Env) (fs : FS) (w : ResponseWriter) (r : Request)
    (p : GoString) (hp : (uploadHandler cfg env fs w r).2 p ≠ fs p) :
    ∃ file fh, r.FormFile (str "file") = some (file, fh)
      ∧ p = Join [cfg.uploadPath, uuidString (uuidNew env.random) ++ Ext fh.Filename] := by
  by_cases hm : r.Method = MethodPost
  · by_cases hk : r.Header.Get (str "X-API-Key") = cfg.apiKey
    · cases hf : r.FormFile (str "file") with
      | none => rw [handler_no_file cfg env fs w r hm hk hf] at hp; exact absurd rfl hp
      | some x =>
        obtain ⟨file, fh⟩ := x
        refine ⟨file, fh, rfl, ?_⟩
        by_contra hne
        apply hp
        unfold uploadHandler
        rw [if_neg (not_not.mpr hm), if_neg (not_not.mpr hk), hf]
        simp only []
        split_ifs with he
        · rfl
        · cases hc : env.createErr with
          | true => simp [osCreate, hc]
          | false =>
            cases hcp : env.copyErr with
            | some n => simp [osCreate, hc, ioCopy, hcp, hne]
            | none =>
              simp only [osCreate, hc, ioCopy, hcp, Bool.false_eq_true, if_false]
              generalize jsonEncode _ _ _ = e
              obtain ⟨w2, ok⟩ := e
              cases ok <;> simp [hne]
    · rw [handler_bad_key cfg env fs w r hm hk] at hp; exact absurd rfl hp
  · rw [handler_not_post cfg env fs w r hm] at hp; exact absurd rfl hp

/-! ## Characters and bytes -/

theorem runeCountLoop_le (n : Nat) : ∀ s : List UInt8, runeCountLoop n s ≤ s.length := by
  induction n with
  | zero => intro s; simp [runeCountLoop]
  | succ n ih =>
    intro s
    cases s with
    | nil => simp [runeCountLoop]
    | cons b rest =>
      have hd : 1 ≤ (DecodeRuneInString (b :: rest)).2 := by
        unfold DecodeRuneInString
        simp only []
        repeat' split
        all_goals simp
      have := ih ((b :: rest).drop (DecodeRuneInString (b :: rest)).2)
      simp only [runeCountLoop, List.length_drop, List.length_cons] at this ⊢
      omega

theorem RuneCountInString_le (s : GoString) : RuneCountInString s ≤ s.length :=
  runeCountLoop_le _ s

/-! ## JSON strings: decoding what `appendString` writes -/

set_option maxRecDepth 100000 in
theorem escape_facts :
    ∀ b : UInt8, b < 0x80 →
      EncodeRune b.toNat = [b]
      ∧ hex4 0x30 0x30 (hextable (b >>> 4).toNat) (hextable (b &&& 0x0f).toNat) = some b.toNat
      ∧ (htmlSafeSet b = true → b ≠ 0x22 ∧ b ≠ 0x5c ∧ ¬ b < 0x20) := by
  apply forall_byte
  decide

theorem unquote_safe (fuel : Nat) (b : UInt8) (rest acc : List UInt8) (hb : b ≠ 0x22)
    (hb2 : b ≠ 0x5c) (hb3 : ¬ b < 0x20) :
    jsonUnquoteLoop (fuel + 1) (b :: rest) acc = jsonUnquoteLoop fuel rest (acc ++ [b]) := by
  rw [jsonUnquoteLoop.eq_def]
  simp only []
  rw [if_neg hb, if_neg hb2, if_neg hb3]

theorem unquote_simple (fuel : Nat) (e b : UInt8) (rest acc : List UInt8) (he : e ≠ 0x75)
    (hs : simpleEscape e = some b) :
    jsonUnquoteLoop (fuel + 1) (0x5c :: e :: rest) acc = jsonUnquoteLoop fuel rest (acc ++ [b]) := by
  rw [jsonUnquoteLoop.eq_def]
  simp only []
  rw [if_pos trivial, if_neg he, hs]
  exact if_neg (by decide)

theorem unquote_u (fuel : Nat) (h1 h2 h3 h4 : UInt8) (r : Nat) (rest acc : List UInt8)
    (hx : hex4 h1 h2 h3 h4 = some r) (hr : ¬(0xD800 ≤ r ∧ r < 0xDC00)) :
    jsonUnquoteLoop (fuel + 1) (0x5c :: 0x75 :: h1 :: h2 :: h3 :: h4 :: rest) acc
      = jsonUnquoteLoop fuel rest (acc ++ EncodeRune r) := by
  rw [jsonUnquoteLoop.eq_def]
  simp only []
  rw [if_pos trivial, if_pos trivial, hx]
  simp only []
  rw [if_neg hr]
  exact if_neg (by decide)

/-- Decoding undoes the escape of one ASCII byte. -/
theorem unquote_escapeByte (fuel : Nat) (b : UInt8) (rest acc : List UInt8) (hb : b < 0x80) :
    jsonUnquoteLoop (fuel + 1) (escapeByte b ++ rest) acc
      = jsonUnquoteLoop fuel rest (acc ++ [b]) := by
  obtain ⟨henc, hhex, _⟩ := escape_facts b hb
  unfold escapeByte
  split_ifs with c1 c2 c3 c4 c5 c6
  · rcases c1 with rfl | rfl
    · exact unquote_simple fuel _ _ rest acc (by decide) (by decide)
    · exact unquote_simple fuel _ _ rest acc (by decide) (by decide)
  · subst c2; exact unquote_simple fuel _ _ rest acc (by decide) (by decide)
  · subst c3; exact unquote_simple fuel _ _ rest acc (by decide) (by decide)
  · subst c4; exact unquote_simple fuel _ _ rest acc (by decide) (by decide)
  · subst c5; exact unquote_simple fuel _ _ rest acc (by decide) (by decide)
  · subst c6; exact unquote_simple fuel _ _ rest acc (by decide) (by decide)
  · have hb' : b.toNat < 128 := by simpa [UInt8.lt_def, UInt8.toNat] using hb
    have := unquote_u fuel 0x30 0x30 _ _ b.toNat rest acc hhex (by omega)
    rw [henc] at this
    exact this

/-- Bytes from `0x80` up are kept as they are by the decoder. -/
theorem unquote_raw (bytes : List UInt8) (hbytes : ∀ x ∈ bytes, (0x80 : UInt8) ≤ x) :
    ∀ (fuel : Nat) (rest acc : List UInt8),
      jsonUnquoteLoop (fuel + bytes.length) (bytes ++ rest) acc
        = jsonUnquoteLoop fuel rest (acc ++ bytes) := by
  induction bytes with
  | nil => intro fuel rest acc; simp
  | cons x xs ih =>
    intro fuel rest acc
    have hx : (0x80 : UInt8) ≤ x := hbytes x (List.mem_cons_self _ _)
    have hx' : 128 ≤ x.toNat := by simpa [UInt8.le_def, UInt8.toNat] using hx
    have e1 : x ≠ 0x22 := by
      intro e; rw [e] at hx; exact absurd hx (by decide)
    have e2 : x ≠ 0x5c := by
      intro e; rw [e] at hx; exact absurd hx (by decide)
    have e3 : ¬ x < 0x20 := by
      intro e
      have : x.toNat < 32 := by simpa [UInt8.lt_def, UInt8.toNat] using e
      omega
    rw [List.length_cons, ← Nat.add_assoc, List.cons_append, unquote_safe _ x _ acc e1 e2 e3,
      ih (fun y hy => hbytes y (List.mem_cons_of_mem _ hy))]
    simp

/-! ## UTF-8: encoding what was decoded -/

set_option maxRecDepth 100000 in
theorem lead_facts :
    ∀ b : UInt8,
      seqLen b = (if b.toNat < 0xE0 then 2 else if b.toNat < 0xF0 then 3 else 4)
      ∧ (acceptLo b).toNat = (if b.toNat = 0xE0 then 0xA0 else if b.toNat = 0xF0 then 0x90 else 0x80)
      ∧ (acceptHi b).toNat = (if b.toNat = 0xED then 0x9F else if b.toNat = 0xF4 then 0x8F else 0xBF) := by
  apply forall_byte
  decide

theorem enc2 (b s1 : UInt8) (h0 : 0xC2 ≤ b.toNat) (h0' : b.toNat ≤ 0xDF)
    (h1 : 0x80 ≤ s1.toNat) (h1' : s1.toNat ≤ 0xBF) :
    EncodeRune (b.toNat % 32 * 64 + s1.toNat % 64) = [b, s1] := by
  unfold EncodeRune
  rw [if_neg (by omega), if_pos (by omega)]
  congr 1
  · apply UInt8.ext; rw [toUInt8_toNat]; omega
  · congr 1
    apply UInt8.ext; rw [toUInt8_toNat]; omega

theorem EncodeRune_three (r : Nat) (h1 : 0x7FF < r) (h2 : r ≤ 0xFFFF)
    (h3 : ¬(0xD800 ≤ r ∧ r ≤ 0xDFFF)) :
    EncodeRune r
      = [(0xE0 + r / 4096).toUInt8, (0x80 + r / 64 % 64).toUInt8, (0x80 + r % 64).toUInt8] := by
  have hs : ¬(r > 0x10FFFF ∨ (0xD800 ≤ r ∧ r ≤ 0xDFFF)) := by omega
  unfold EncodeRune
  rw [if_neg (by omega), if_neg (by omega)]
  simp only [hs, if_false]
  rw [if_pos h2]

theorem EncodeRune_four (r : Nat) (h1 : 0xFFFF < r) (h2 : r ≤ 0x10FFFF) :
    EncodeRune r
      = [(0xF0 + r / 262144).toUInt8, (0x80 + r / 4096 % 64).toUInt8,
          (0x80 + r / 64 % 64).toUInt8, (0x80 + r % 64).toUInt8] := by
  have hs : ¬(r > 0x10FFFF ∨ (0xD800 ≤ r ∧ r ≤ 0xDFFF)) := by omega
  unfold EncodeRune
  rw [if_neg (by omega), if_neg (by omega)]
  simp only [hs, if_false]
  rw [if_neg (by omega)]

theorem enc3 (b s1 s2 : UInt8) (h0 : 0xE0 ≤ b.toNat) (h0' : b.toNat ≤ 0xEF)
    (h1 : 0x80 ≤ s1.toNat) (h1' : s1.toNat ≤ 0xBF)
    (hlo : b.toNat = 0xE0 → 0xA0 ≤ s1.toNat) (hhi : b.toNat = 0xED → s1.toNat ≤ 0x9F)
    (h2 : 0x80 ≤ s2.toNat) (h2' : s2.toNat ≤ 0xBF) :
    EncodeRune (b.toNat % 16 * 4096 + s1.toNat % 64 * 64 + s2.toNat % 64) = [b, s1, s2] := by
  rw [EncodeRune_three _ (by omega) (by omega) (by omega)]
  congr 1
  · apply UInt8.ext; rw [toUInt8_toNat]; omega
  · congr 1
    · apply UInt8.ext; rw [toUInt8_toNat]; omega
    · congr 1
      apply UInt8.ext; rw [toUInt8_toNat]; omega

theorem enc4 (b s1 s2 s3 : UInt8) (h0 : 0xF0 ≤ b.toNat) (h0' : b.toNat ≤ 0xF4)
    (h1 : 0x80 ≤ s1.toNat) (h1' : s1.toNat ≤ 0xBF)
    (hlo : b.toNat = 0xF0 → 0x90 ≤ s1.toNat) (hhi : b.toNat = 0xF4 → s1.toNat ≤ 0x8F)
    (h2 : 0x80 ≤ s2.toNat) (h2' : s2.toNat ≤ 0xBF)
    (h3 : 0x80 ≤ s3.toNat) (h3' : s3.toNat ≤ 0xBF) :
    EncodeRune (b.toNat % 8 * 262144 + s1.toNat % 64 * 4096 + s2.toNat % 64 * 64 + s3.toNat % 64)
      = [b, s1, s2, s3] := by
  rw [EncodeRune_four _ (by omega) (by omega)]
  congr 1
  · apply UInt8.ext; rw [toUInt8_toNat]; omega
  · congr 1
    · apply UInt8.ext; rw [toUInt8_toNat]; omega
    · congr 1
      · apply UInt8.ext; rw [toUInt8_toNat]; omega
      · congr 1
        apply UInt8.ext; rw [toUInt8_toNat]; omega

theorem lit80 : (0x80 : UInt8).toNat = 128 := rfl
theorem litC2 : (0xC2 : UInt8).toNat = 194 := rfl
theorem litF4 : (0xF4 : UInt8).toNat = 244 := rfl
theorem litBF : (0xBF : UInt8).toNat = 191 := rfl

/-- A decoding step at a byte from `0x80` up that reports no error reads 2, 3
or 4 bytes, all from `0x80` up, and encoding the rune gives those bytes back. -/
theorem decode_multibyte (b : UInt8) (rest : List UInt8) (hb : ¬ b < 0x80)
    (hok : ¬((DecodeRuneInString (b :: rest)).1 = RuneError
      ∧ (DecodeRuneInString (b :: rest)).2 = 1)) :
    ∃ bytes tail, b :: rest = bytes ++ tail
      ∧ bytes.length = (DecodeRuneInString (b :: rest)).2 ∧ 1 ≤ bytes.length
      ∧ (∀ x ∈ bytes, (0x80 : UInt8) ≤ x)
      ∧ EncodeRune (DecodeRuneInString (b :: rest)).1 = bytes := by
  obtain ⟨f3, f4, f5⟩ := lead_facts b
  have hb' : 0x80 ≤ b.toNat := by
    rw [byte_lt_iff, lit80] at hb; omega
  have hge : ∀ x : UInt8, 0x80 ≤ x.toNat → (0x80 : UInt8) ≤ x := by
    intro x hx; rw [byte_le_iff, lit80]; exact hx
  generalize hd : DecodeRuneInString (b :: rest) = d at hok ⊢
  unfold DecodeRuneInString at hd
  simp only [hb, if_false] at hd
  split_ifs at hd with c1 c2 c3 c4 c5 c6 c7
  · subst hd; exact absurd ⟨rfl, rfl⟩ hok
  · subst hd; exact absurd ⟨rfl, rfl⟩ hok
  · subst hd; exact absurd ⟨rfl, rfl⟩ hok
  · -- two bytes
    subst hd
    rw [byte_lt_iff, byte_lt_iff, litC2, litF4] at c1
    rw [byte_lt_iff, byte_lt_iff, f4, f5] at c3
    rw [f3] at c2 c4
    have hlt : b.toNat < 0xE0 := by
      by_contra h; rw [if_neg h] at c4; split_ifs at c4 <;> omega
    rw [if_pos hlt] at c2
    cases rest with
    | nil => simp at c2
    | cons s1 t =>
      simp only [List.getD_cons_zero] at c3 ⊢
      have h1 : 0x80 ≤ s1.toNat ∧ s1.toNat ≤ 0xBF := by
        split_ifs at c3 <;> omega
      refine ⟨[b, s1], t, rfl, rfl, by simp, ?_, enc2 b s1 (by omega) (by omega) h1.1 h1.2⟩
      intro x hx
      simp only [List.mem_cons, List.mem_singleton, List.not_mem_nil, or_false] at hx
      rcases hx with rfl | rfl
      · exact hge _ hb'
      · exact hge _ h1.1
  · subst hd; exact absurd ⟨rfl, rfl⟩ hok
  · -- three bytes
    subst hd
    rw [byte_lt_iff, byte_lt_iff, litC2, litF4] at c1
    rw [byte_lt_iff, byte_lt_iff, f4, f5] at c3
    rw [byte_lt_iff, byte_lt_iff, lit80, litBF] at c5
    rw [f3] at c2 c4 c6
    have hge0 : ¬ b.toNat < 0xE0 := by
      intro h; rw [if_pos h] at c4; omega
    have hlt : b.toNat < 0xF0 := by
      by_contra h; rw [if_neg hge0, if_neg h] at c6; omega
    rw [if_neg hge0, if_pos hlt] at c2
    cases rest with
    | nil => simp at c2
    | cons s1 t =>
      cases t with
      | nil => simp at c2
      | cons s2 t =>
        simp only [List.getD_cons_zero, List.getD_cons_succ] at c3 c5 ⊢
        have h1 : 0x80 ≤ s1.toNat ∧ s1.toNat ≤ 0xBF ∧ (b.toNat = 0xE0 → 0xA0 ≤ s1.toNat)
            ∧ (b.toNat = 0xED → s1.toNat ≤ 0x9F) := by
          split_ifs at c3 <;> omega
        refine ⟨[b, s1, s2], t, rfl, rfl, by simp, ?_,
          enc3 b s1 s2 (by omega) (by omega) h1.1 h1.2.1 h1.2.2.1 h1.2.2.2 (by omega) (by omega)⟩
        intro x hx
        simp only [List.mem_cons, List.mem_singleton, List.not_mem_nil, or_false] at hx
        rcases hx with rfl | rfl | rfl
        · exact hge _ hb'
        · exact hge _ h1.1
        · exact hge _ (by omega)
  · subst hd; exact absurd ⟨rfl, rfl⟩ hok
  · -- four bytes
    subst hd
    rw [byte_lt_iff, byte_lt_iff, litC2, litF4] at c1
    rw [byte_lt_iff, byte_lt_iff, f4, f5] at c3
    rw [byte_lt_iff, byte_lt_iff, lit80, litBF] at c5 c7
    rw [f3] at c2 c4 c6
    have hge0 : ¬ b.toNat < 0xF0 := by
      intro h
      by_cases h' : b.toNat < 0xE0
      · rw [if_pos h'] at c4; omega
      · rw [if_neg h', if_pos h] at c6; omega
    have hge1 : ¬ b.toNat < 0xE0 := by omega
    rw [if_neg hge1, if_neg hge0] at c2
    cases rest with
    | nil => simp at c2
    | cons s1 t =>
      cases t with
      | nil => simp at c2
      | cons s2 t =>
        cases t with
        | nil => simp at c2
        | cons s3 t =>
          simp only [List.getD_cons_zero, List.getD_cons_succ] at c3 c5 c7 ⊢
          have h1 : 0x80 ≤ s1.toNat ∧ s1.toNat ≤ 0xBF ∧ (b.toNat = 0xF0 → 0x90 ≤ s1.toNat)
              ∧ (b.toNat = 0xF4 → s1.toNat ≤ 0x8F) := by
            split_ifs at c3 <;> omega
          refine ⟨[b, s1, s2, s3], t, rfl, rfl, by simp, ?_,
            enc4 b s1 s2 s3 (by omega) (by omega) h1.1 h1.2.1 h1.2.2.1 h1.2.2.2 (by omega)
              (by omega) (by omega) (by omega)⟩
          intro x hx
          simp only [List.mem_cons, List.mem_singleton, List.not_mem_nil, or_false] at hx
          rcases hx with rfl | rfl | rfl | rfl
          · exact hge _ hb'
          · exact hge _ h1.1
          · exact hge _ (by omega)
          · exact hge _ (by omega)

/-! ## The JSON body decodes to the URL -/

theorem seqLen_le (b : UInt8) : seqLen b ≤ 4 := by
  unfold seqLen; split_ifs <;> omega

theorem decode_take4 (s : List UInt8) :
    DecodeRuneInString (s.take 4) = DecodeRuneInString s := by
  rcases s with _ | ⟨a, _ | ⟨b, _ | ⟨c, _ | ⟨d, _ | ⟨e, t⟩⟩⟩⟩⟩
  · rfl
  · rfl
  · rfl
  · rfl
  · rfl
  · have h := seqLen_le a
    have e1 : ¬ ([a, b, c, d].length < seqLen a) := by simp; omega
    have e2 : ¬ ((a :: b :: c :: d :: e :: t).length < seqLen a) := by simp; omega
    simp only [List.take, DecodeRuneInString, e1, e2, if_false, List.getD_cons_zero,
      List.getD_cons_succ]

theorem decode_ascii (b : UInt8) (rest : List UInt8) (hb : b < 0x80) :
    DecodeRuneInString (b :: rest) = (b.toNat, 1) := by
  simp only [DecodeRuneInString, hb, if_true]

theorem escapeByte_length (b : UInt8) : 1 ≤ (escapeByte b).length := by
  unfold escapeByte; split_ifs <;> simp

theorem hex_2028 :
    hex4 0x32 0x30 0x32 (hextable (0x2028 % 16)) = some 0x2028
    ∧ hex4 0x32 0x30 0x32 (hextable (0x2029 % 16)) = some 0x2029 := by
  decide

/-- Decoding what `appendString` writes for a valid UTF-8 string gives the
string back. -/
theorem unquote_appendStringLoop (raw : Bool) :
    ∀ (n : Nat) (s acc tail : List UInt8) (fuel : Nat), s.length ≤ n → validLoop n s = true →
      (appendStringLoop raw n s).length + 1 ≤ fuel →
      jsonUnquoteLoop fuel (appendStringLoop raw n s ++ 0x22 :: tail) acc
        = some (acc ++ s, tail) := by
  intro n
  induction n with
  | zero =>
    intro s acc tail fuel hs _ hf
    have : s = [] := List.length_eq_zero.mp (Nat.le_zero.mp hs)
    subst this
    obtain ⟨f, rfl⟩ : ∃ f, fuel = f + 1 := ⟨fuel - 1, by omega⟩
    rw [jsonUnquoteLoop.eq_def]
    simp [appendStringLoop]
  | succ n ih =>
    intro s acc tail fuel hs hv hf
    cases s with
    | nil =>
      obtain ⟨f, rfl⟩ : ∃ f, fuel = f + 1 := ⟨fuel - 1, by omega⟩
      rw [jsonUnquoteLoop.eq_def]
      simp [appendStringLoop]
    | cons b rest =>
      simp only [List.length_cons] at hs
      by_cases hb : b < 0x80
      · -- ASCII
        have hd := decode_ascii b rest hb
        have hb' : b.toNat < 128 := by rw [byte_lt_iff, lit80] at hb; exact hb
        have hv' : validLoop n rest = true := by
          rw [validLoop] at hv
          simp only [hd] at hv
          rw [if_neg (by simp only [RuneError]; omega)] at hv
          simpa using hv
        rw [appendStringLoop] at hf ⊢
        simp only [hb, if_true] at hf ⊢
        by_cases hsafe : htmlSafeSet b = true
        · obtain ⟨e1, e2, e3⟩ := (escape_facts b hb).2.2 hsafe
          simp only [hsafe, if_true, List.length_cons] at hf ⊢
          obtain ⟨f, rfl⟩ : ∃ f, fuel = f + 1 := ⟨fuel - 1, by omega⟩
          rw [List.cons_append, unquote_safe f b _ acc e1 e2 e3,
            ih rest (acc ++ [b]) tail f (by omega) hv' (by omega)]
          simp
        · have hsafe' : htmlSafeSet b = false := by simpa using hsafe
          simp only [hsafe', Bool.false_eq_true, if_false, List.length_append] at hf ⊢
          have hel := escapeByte_length b
          obtain ⟨f, rfl⟩ : ∃ f, fuel = f + 1 := ⟨fuel - 1, by omega⟩
          rw [List.append_assoc, unquote_escapeByte f b _ acc hb,
            ih rest (acc ++ [b]) tail f (by omega) hv' (by omega)]
          simp
      · -- a multi-byte sequence
        rw [validLoop] at hv
        by_cases herr : (DecodeRuneInString (b :: rest)).1 = RuneError
            ∧ (DecodeRuneInString (b :: rest)).2 = 1
        · simp only [herr, and_self, if_true] at hv
          exact absurd hv (by simp)
        · simp only [herr, if_false] at hv
          obtain ⟨bytes, tl, hsplit, hlen, hpos, hall, henc⟩ := decode_multibyte b rest hb herr
          have htake : (b :: rest).take (DecodeRuneInString (b :: rest)).2 = bytes := by
            rw [← hlen, hsplit]; exact List.take_left' rfl
          have hdrop : (b :: rest).drop (DecodeRuneInString (b :: rest)).2 = tl := by
            rw [← hlen, hsplit]; exact List.drop_left' rfl
          have hlen2 : bytes.length + tl.length = rest.length + 1 := by
            have := congrArg List.length hsplit
            simp only [List.length_cons, List.length_append] at this
            omega
          rw [hdrop] at hv
          rw [appendStringLoop] at hf ⊢
          simp only [hb, if_false, decode_take4, herr, htake, hdrop] at hf ⊢
          by_cases hls : (DecodeRuneInString (b :: rest)).1 = 0x2028
              ∨ (DecodeRuneInString (b :: rest)).1 = 0x2029
          · simp only [hls, if_true, List.length_append, List.length_cons, List.length_nil]
              at hf ⊢
            obtain ⟨f, rfl⟩ : ∃ f, fuel = f + 1 := ⟨fuel - 1, by omega⟩
            have hx : hex4 0x32 0x30 0x32 (hextable ((DecodeRuneInString (b :: rest)).1 % 16))
                = some (DecodeRuneInString (b :: rest)).1 := by
              rcases hls with h | h
              · rw [h]; exact hex_2028.1
              · rw [h]; exact hex_2028.2
            have hns : ¬(0xD800 ≤ (DecodeRuneInString (b :: rest)).1
                ∧ (DecodeRuneInString (b :: rest)).1 < 0xDC00) := by
              rcases hls with h | h <;> rw [h] <;> omega
            simp only [List.cons_append, List.nil_append]
            rw [unquote_u f _ _ _ _ _ _ acc hx hns, henc,
              ih tl (acc ++ bytes) tail f (by omega) hv (by omega)]
            rw [hsplit]; simp
          · simp only [hls, if_false, List.length_append] at hf ⊢
            obtain ⟨f, rfl⟩ : ∃ f, fuel = f + bytes.length := ⟨fuel - bytes.length, by omega⟩
            rw [List.append_assoc, unquote_raw bytes hall f _ acc,
              ih tl (acc ++ bytes) tail f (by omega) hv (by omega)]
            rw [hsplit]; simp

/-- On valid UTF-8 the two variants of the encoder write the same bytes. -/
theorem appendStringLoop_valid (raw1 raw2 : Bool) :
    ∀ (n : Nat) (s : List UInt8), validLoop n s = true →
      appendStringLoop raw1 n s = appendStringLoop raw2 n s := by
  intro n
  induction n with
  | zero => intro s _; rfl
  | succ n ih =>
    intro s hv
    cases s with
    | nil => rfl
    | cons b rest =>
      rw [validLoop] at hv
      by_cases herr : (DecodeRuneInString (b :: rest)).1 = RuneError
          ∧ (DecodeRuneInString (b :: rest)).2 = 1
      · simp only [herr, and_self, if_true] at hv
        exact absurd hv (by simp)
      · simp only [herr, if_false] at hv
        rw [appendStringLoop, appendStringLoop]
        by_cases hb : b < 0x80
        · have hd := decode_ascii b rest hb
          rw [hd] at hv
          have e := ih rest (by simpa using hv)
          simp only [hb, if_true, e]
        · have e := ih _ hv
          simp only [hb, if_false, decode_take4, herr, e]

theorem jsonMarshal_valid (raw1 raw2 : Bool) (url : GoString) (hv : ValidString url = true) :
    jsonMarshal raw1 { URL := url } = jsonMarshal raw2 { URL := url } := by
  simp only [jsonMarshal, appendString, appendStringLoop_valid raw1 raw2 _ _ hv]

theorem dropLiteral_append (lit s : List UInt8) : dropLiteral lit (lit ++ s) = some s := by
  induction lit with
  | nil => cases s <;> rfl
  | cons a lit ih => simp [dropLiteral, ih]

/-- The body `Encode` writes for a valid UTF-8 URL decodes to that URL. -/
theorem decodeURL_jsonMarshal (raw : Bool) (url : GoString) (hv : ValidString url = true) :
    decodeURL (jsonMarshal raw { URL := url } ++ [0x0a]) = some url := by
  have hbody : jsonMarshal raw { URL := url } ++ [0x0a]
      = ([0x7b] ++ str "\"url\":\"")
          ++ (appendStringLoop raw url.length url ++ 0x22 :: [0x7d, 0x0a]) := by
    have hs : str "\"url\":\"" = str "\"url\":" ++ [0x22] := by decide
    simp only [jsonMarshal, appendString, hs, List.append_assoc, List.cons_append,
      List.nil_append, List.singleton_append]
  unfold decodeURL
  rw [hbody, dropLiteral_append]
  simp only []
  rw [unquote_appendStringLoop raw url.length url [] [0x7d, 0x0a] _ (le_refl _) hv (by simp)]
  simp

/-- The response on the path where every gate passes and the file is created
and copied: status 200 and the JSON content type, whether or not the write to
the client succeeds, and the encoded object as body when it does. -/
theorem success_response (cfg : Config) (env : Env) (fs : FS) (writeErr : Bool)
    (r : Request) (file : List UInt8) (fh : FileHeader) (hm : r.Method = MethodPost)
    (hk : r.Header.Get (str "X-API-Key") = cfg.apiKey)
    (hf : r.FormFile (str "file") = some (file, fh))
    (he : ¬(Ext fh.Filename = [] ∨ (Ext fh.Filename).length > 10))
    (hc : env.createErr = false) (hcp : env.copyErr = none) :
    (uploadHandler cfg env fs (newResponseWriter writeErr) r).1.status = 200
    ∧ (uploadHandler cfg env fs (newResponseWriter writeErr) r).1.sentHeader.Get
        (str "Content-Type") = str "application/json"
    ∧ (writeErr = false →
        (uploadHandler cfg env fs (newResponseWriter writeErr) r).1.body
          = jsonMarshal env.jsonRaw
              { URL := cfg.publicURL ++ (uuidString (uuidNew env.random) ++ Ext fh.Filename) }
            ++ [0x0a]) := by
  rw [(handler_stored cfg env fs _ r file fh hm hk hf he hc hcp).2]
  cases writeErr with
  | true =>
    refine ⟨?_, ?_, fun h => absurd h (by simp)⟩
    · simp [jsonEncode, ResponseWriter.Write, ResponseWriter.WriteHeader, newResponseWriter,
        httpError_status]
    · simp only [jsonEncode, ResponseWriter.Write, ResponseWriter.WriteHeader, newResponseWriter,
        httpError, Bool.false_eq_true, if_false, if_true]
      exact Header_get_set _ _ _
  | false =>
    simp only [jsonEncode, ResponseWriter.Write, ResponseWriter.WriteHeader, newResponseWriter,
      Bool.false_eq_true, if_false, if_true, List.nil_append]
    exact ⟨trivial, Header_get_set _ _ _, fun _ => trivial⟩

/-! ## The loops over a string never run short of iterations -/

theorem decode_size_pos (b : UInt8) (rest : List UInt8) :
    1 ≤ (DecodeRuneInString (b :: rest)).2 := by
  unfold DecodeRuneInString
  simp only []
  repeat' split
  all_goals simp

/-- With at least as many iterations as the input has bytes, `appendString`
writes the same bytes: the loop ends because the input is used up. -/
theorem appendStringLoop_fuel (raw : Bool) :
    ∀ (f1 f2 : Nat) (s : List UInt8), s.length ≤ f1 → s.length ≤ f2 →
      appendStringLoop raw f1 s = appendStringLoop raw f2 s := by
  intro f1
  induction f1 with
  | zero =>
    intro f2 s h1 _
    have : s = [] := List.length_eq_zero.mp (Nat.le_zero.mp h1)
    subst this
    cases f2 <;> rfl
  | succ k ih =>
    intro f2 s h1 h2
    cases s with
    | nil => cases f2 <;> rfl
    | cons b rest =>
      cases f2 with
      | zero => simp at h2
      | succ m =>
        simp only [List.length_cons] at h1 h2
        have hpos := decode_size_pos b rest
        rw [← decode_take4 (b :: rest)] at hpos
        have hdrop : ((b :: rest).drop (DecodeRuneInString ((b :: rest).take 4)).2).length
            ≤ rest.length := by
          rw [List.length_drop, List.length_cons]; omega
        have e1 := ih m rest (by omega) (by omega)
        have e2 := ih m ((b :: rest).drop (DecodeRuneInString ((b :: rest).take 4)).2)
          (by omega) (by omega)
        rw [appendStringLoop, appendStringLoop]
        simp only [e1, e2]

/-- The same for the loop of `utf8.ValidString`. -/
theorem validLoop_fuel :
    ∀ (f1 f2 : Nat) (s : List UInt8), s.length ≤ f1 → s.length ≤ f2 →
      validLoop f1 s = validLoop f2 s := by
  intro f1
  induction f1 with
  | zero =>
    intro f2 s h1 _
    have : s = [] := List.length_eq_zero.mp (Nat.le_zero.mp h1)
    subst this
    cases f2 <;> rfl
  | succ k ih =>
    intro f2 s h1 h2
    cases s with
    | nil => cases f2 <;> rfl
    | cons b rest =>
      cases f2 with
      | zero => simp at h2
      | succ m =>
        simp only [List.length_cons] at h1 h2
        have hpos := decode_size_pos b rest
        have hdrop : ((b :: rest).drop (DecodeRuneInString (b :: rest)).2).length
            ≤ rest.length := by
          rw [List.length_drop, List.length_cons]; omega
        have e := ih m ((b :: rest).drop (DecodeRuneInString (b :: rest)).2) (by omega)
          (by omega)
        rw [validLoop, validLoop]
        simp only [e]

/-! ## The claims -/

/-- C1: the response status of `uploadHandler` is that of the first failing
gate, in the order method (405), key (401), file field (400), extension (415),
filesystem (500), and 200 when none fails, for every configuration, request,
storage and outcome of the filesystem and of the connection; the two examples
of the claim are the last two conjuncts. -/
theorem C1_first_failing_gate :
    (∀ (cfg : Config) (env : Env) (fs : FS) (writeErr : Bool) (r : Request),
      (uploadHandler cfg env fs (newResponseWriter writeErr) r).1.status = specStatus cfg env r)
    ∧ (uploadHandler exampleConfig quietEnv emptyFS (newResponseWriter false) getWrongKey).1.status
        = 405
    ∧ (uploadHandler exampleConfig quietEnv emptyFS (newResponseWriter false) postWrongKey).1.status
        = 401 := by
  exact ⟨uploadHandler_status, by decide, by decide⟩

/-- C2 (as stated, refuted): the request `getWrongKey` carries an `X-API-Key`
header that differs from the configured key, yet the response status is 405,
not 401.  And when the handler runs with an empty configured key (which `main`
does not allow), a POST without the header passes the key gate: the missing
header reads as the empty string. -/
theorem C2_counterexample :
    (getWrongKey.Header.Get (str "X-API-Key") ≠ exampleConfig.apiKey
      ∧ (uploadHandler exampleConfig quietEnv emptyFS (newResponseWriter false) getWrongKey).1.status
          = 405)
    ∧ (noKeyRequest.Header (CanonicalMIMEHeaderKey (str "X-API-Key")) = []
      ∧ (uploadHandler emptyKeyConfig quietEnv emptyFS (newResponseWriter false) noKeyRequest).1.status
          = 200) := by
  decide

/-- C2 (amended): for every POST request whose `X-API-Key` value (the empty
string when the header is missing) differs from the configured key, the
response status is 401 and the storage is unchanged; in particular a POST
without the header gets 401 whenever the configured key is not empty. -/
theorem C2_post_bad_key_401 (cfg : Config) (env : Env) (fs : FS) (writeErr : Bool)
    (r : Request) (hm : r.Method = MethodPost) :
    (r.Header.Get (str "X-API-Key") ≠ cfg.apiKey →
      (uploadHandler cfg env fs (newResponseWriter writeErr) r).1.status = 401
        ∧ (uploadHandler cfg env fs (newResponseWriter writeErr) r).2 = fs)
    ∧ (r.Header (CanonicalMIMEHeaderKey (str "X-API-Key")) = [] → cfg.apiKey ≠ [] →
      (uploadHandler cfg env fs (newResponseWriter writeErr) r).1.status = 401
        ∧ (uploadHandler cfg env fs (newResponseWriter writeErr) r).2 = fs) := by
  have main : r.Header.Get (str "X-API-Key") ≠ cfg.apiKey →
      (uploadHandler cfg env fs (newResponseWriter writeErr) r).1.status = 401
        ∧ (uploadHandler cfg env fs (newResponseWriter writeErr) r).2 = fs := by
    intro hk
    rw [handler_bad_key cfg env fs _ r hm hk]
    simp [httpError_status, newResponseWriter]
  refine ⟨main, ?_⟩
  intro habs hne
  apply main
  simp only [Header.Get, habs]
  exact fun h => hne h.symm

/-- Witness of C2: the POST `postWrongKey` carries the key `wrong`. -/
theorem C2_post_bad_key_401_witness :
    (uploadHandler exampleConfig quietEnv emptyFS (newResponseWriter false) postWrongKey).1.status
        = 401
    ∧ (uploadHandler exampleConfig quietEnv emptyFS (newResponseWriter false) postWrongKey).2
        = emptyFS :=
  (C2_post_bad_key_401 exampleConfig quietEnv emptyFS false postWrongKey (by decide)).1
    (by decide)

/-- C3: for every request whose method is not POST, whatever its headers and
body, the response status is 405 and the storage is unchanged. -/
theorem C3_not_post_405 (cfg : Config) (env : Env) (fs : FS) (writeErr : Bool)
    (r : Request) (hm : r.Method ≠ MethodPost) :
    (uploadHandler cfg env fs (newResponseWriter writeErr) r).1.status = 405
      ∧ (uploadHandler cfg env fs (newResponseWriter writeErr) r).2 = fs := by
  rw [handler_not_post cfg env fs _ r hm]
  simp [httpError_status, newResponseWriter]

/-- Witness of C3: a GET request. -/
theorem C3_not_post_405_witness :
    (uploadHandler exampleConfig quietEnv emptyFS (newResponseWriter false) getWrongKey).1.status
        = 405
    ∧ (uploadHandler exampleConfig quietEnv emptyFS (newResponseWriter false) getWrongKey).2
        = emptyFS :=
  C3_not_post_405 exampleConfig quietEnv emptyFS false getWrongKey (by decide)

/-- C4: for every POST request with the right key and a readable `file` field
whose filename extension is empty or longer than 10 (in bytes, as the code
measures it, and so also when it is longer than 10 characters), the response
status is 415 and the storage is unchanged. -/
theorem C4_bad_extension_415 (cfg : Config) (env : Env) (fs : FS) (writeErr : Bool)
    (r : Request) (file : List UInt8) (fh : FileHeader) (hm : r.Method = MethodPost)
    (hk : r.Header.Get (str "X-API-Key") = cfg.apiKey)
    (hf : r.FormFile (str "file") = some (file, fh))
    (he : Ext fh.Filename = [] ∨ 10 < (Ext fh.Filename).length
      ∨ 10 < RuneCountInString (Ext fh.Filename)) :
    (uploadHandler cfg env fs (newResponseWriter writeErr) r).1.status = 415
      ∧ (uploadHandler cfg env fs (newResponseWriter writeErr) r).2 = fs := by
  have he2 : Ext fh.Filename = [] ∨ (Ext fh.Filename).length > 10 := by
    rcases he with h | h | h
    · exact Or.inl h
    · exact Or.inr h
    · exact Or.inr (lt_of_lt_of_le h (RuneCountInString_le _))
  rw [handler_bad_ext cfg env fs _ r file fh hm hk hf he2]
  simp [httpError_status, newResponseWriter]

/-- Witness of C4: the file `archive`, which has no extension. -/
theorem C4_bad_extension_415_witness :
    (uploadHandler exampleConfig quietEnv emptyFS (newResponseWriter false) archiveRequest).1.status
        = 415
    ∧ (uploadHandler exampleConfig quietEnv emptyFS (newResponseWriter false) archiveRequest).2
        = emptyFS :=
  C4_bad_extension_415 exampleConfig quietEnv emptyFS false archiveRequest [1, 2, 3]
    ⟨str "archive", [1, 2, 3], false⟩ (by decide) (by decide) (by decide) (Or.inl (by decide))



/-- C5 (as stated, refuted): `photoRequest` is a POST with the right key and a
readable file whose extension `.png` has length 4, but the response is 500
when `os.Create` fails, and the body is empty when the write to the client
fails.  For the file name `a.` followed by the byte `0x80` the extension has
length 2 and the response is 200, but the decoded `url` ends in U+FFFD instead
of that byte, with either variant of the encoder.  The extension of `a.éééééé`
has 7 characters and the response is 415, since the bound is on the length in
bytes. -/
theorem C5_counterexample :
    (photoRequest.Method = MethodPost
      ∧ photoRequest.Header.Get (str "X-API-Key") = exampleConfig.apiKey
      ∧ photoRequest.FormFile (str "file") = some ([0xFF, 0xD8], ⟨str "photo.png", [0xFF, 0xD8], false⟩)
      ∧ (Ext (str "photo.png")).length = 4)
    ∧ (uploadHandler exampleConfig createFailsEnv emptyFS (newResponseWriter false) photoRequest).1.status
        = 500
    ∧ (uploadHandler exampleConfig quietEnv emptyFS (newResponseWriter true) photoRequest).1.body = []
    ∧ ((Ext [0x61, 0x2e, 0x80]).length = 2
      ∧ (uploadHandler exampleConfig quietEnv emptyFS (newResponseWriter false) rawByteRequest).1.status
          = 200
      ∧ decodeURL
          (uploadHandler exampleConfig quietEnv emptyFS (newResponseWriter false) rawByteRequest).1.body
          = some (exampleConfig.publicURL ++ uuidString (uuidNew quietEnv.random)
              ++ [0x2e, 0xEF, 0xBF, 0xBD])
      ∧ decodeURL
          (uploadHandler exampleConfig quietEnvRaw emptyFS (newResponseWriter false)
            rawByteRequest).1.body
          = some (exampleConfig.publicURL ++ uuidString (uuidNew quietEnvRaw.random)
              ++ [0x2e, 0xEF, 0xBF, 0xBD])
      ∧ exampleConfig.publicURL ++ uuidString (uuidNew quietEnv.random) ++ [0x2e, 0xEF, 0xBF, 0xBD]
          ≠ exampleConfig.publicURL ++ uuidString (uuidNew quietEnv.random)
              ++ Ext [0x61, 0x2e, 0x80])
    ∧ (RuneCountInString (Ext accentName) = 7
      ∧ (uploadHandler exampleConfig quietEnv emptyFS (newResponseWriter false) accentRequest).1.status
          = 415) := by
  decide

/-- C5 (amended): for every POST request with the right key and a readable
`file` field whose extension has between 1 and 10 bytes, if `os.Create` and
`io.Copy` succeed, the response has status 200 and Content-Type
`application/json`; if the write to the client succeeds too and
`PUBLIC_URL ++ id ++ extension` is valid UTF-8, the body is the JSON encoding
of the object whose `url` is that string (the same bytes with either variant
of the encoder), followed by a newline, and the decoded `url` member of the
body equals that string, for every such file name and prefix. -/
theorem C5_success_response (cfg : Config) (env : Env) (fs : FS) (writeErr : Bool)
    (r : Request) (file : List UInt8) (fh : FileHeader) (hm : r.Method = MethodPost)
    (hk : r.Header.Get (str "X-API-Key") = cfg.apiKey)
    (hf : r.FormFile (str "file") = some (file, fh))
    (h1 : 1 ≤ (Ext fh.Filename).length) (h10 : (Ext fh.Filename).length ≤ 10)
    (hc : env.createErr = false) (hcp : env.copyErr = none) :
    (uploadHandler cfg env fs (newResponseWriter writeErr) r).1.status = 200
    ∧ (uploadHandler cfg env fs (newResponseWriter writeErr) r).1.sentHeader.Get
        (str "Content-Type") = str "application/json"
    ∧ (writeErr = false →
        ValidString (cfg.publicURL ++ (uuidString (uuidNew env.random) ++ Ext fh.Filename))
          = true →
        (∀ raw : Bool,
          (uploadHandler cfg env fs (newResponseWriter writeErr) r).1.body
            = jsonMarshal raw
                { URL := cfg.publicURL ++ (uuidString (uuidNew env.random) ++ Ext fh.Filename) }
              ++ [0x0a])
        ∧ decodeURL (uploadHandler cfg env fs (newResponseWriter writeErr) r).1.body
            = some (cfg.publicURL ++ (uuidString (uuidNew env.random) ++ Ext fh.Filename))) := by
  have he : ¬(Ext fh.Filename = [] ∨ (Ext fh.Filename).length > 10) := by
    rintro (h | h)
    · rw [h] at h1; simp at h1
    · omega
  obtain ⟨hs, hh, hb⟩ := success_response cfg env fs writeErr r file fh hm hk hf he hc hcp
  refine ⟨hs, hh, fun hw hv => ⟨fun raw => ?_, ?_⟩⟩
  · rw [hb hw, jsonMarshal_valid env.jsonRaw raw _ hv]
  · rw [hb hw]
    exact decodeURL_jsonMarshal _ _ hv

/-- Witness of C5: the specification's example, `photo.png` with the right
key. -/
theorem C5_success_response_witness :
    (uploadHandler exampleConfig quietEnv emptyFS (newResponseWriter false) photoRequest).1.status
      = 200
    ∧ decodeURL
        (uploadHandler exampleConfig quietEnv emptyFS (newResponseWriter false) photoRequest).1.body
      = some (str "https://cdn.example.com/00000000-0000-4000-8000-000000000000.png") :=
  have h := C5_success_response exampleConfig quietEnv emptyFS false photoRequest [0xFF, 0xD8]
    ⟨str "photo.png", [0xFF, 0xD8], false⟩ (by decide) (by decide) (by decide) (by decide)
    (by decide) rfl rfl
  ⟨h.1, ((h.2.2 rfl (by decide)).2).trans (by decide)⟩

/-- C6 (as stated, refuted): `photoRequest` is a POST with the right key and a
readable file whose extension `.png` has length 4, but when `os.Create` fails
no file exists at the destination path afterwards, and when `io.Copy` fails
after one byte the file there holds one byte of the two uploaded.  The length
the code bounds is the length in bytes: the extension of `a.éééééé` has 7
characters, and nothing is stored. -/
theorem C6_counterexample :
    (photoRequest.Method = MethodPost
      ∧ photoRequest.Header.Get (str "X-API-Key") = exampleConfig.apiKey
      ∧ photoRequest.FormFile (str "file") = some ([0xFF, 0xD8], ⟨str "photo.png", [0xFF, 0xD8], false⟩)
      ∧ (Ext (str "photo.png")).length = 4)
    ∧ (uploadHandler exampleConfig createFailsEnv emptyFS (newResponseWriter false) photoRequest).2
        (Join [exampleConfig.uploadPath,
          uuidString (uuidNew createFailsEnv.random) ++ Ext (str "photo.png")]) = none
    ∧ (uploadHandler exampleConfig copyFailsEnv emptyFS (newResponseWriter false) photoRequest).2
        (Join [exampleConfig.uploadPath,
          uuidString (uuidNew copyFailsEnv.random) ++ Ext (str "photo.png")]) = some [0xFF]
    ∧ (RuneCountInString (Ext accentName) = 7
      ∧ (uploadHandler exampleConfig quietEnv emptyFS (newResponseWriter false) accentRequest).2
        (Join [exampleConfig.uploadPath,
          uuidString (uuidNew quietEnv.random) ++ Ext accentName]) = none) := by
  decide

/-- C6 (amended): for every POST request with the right key and a readable
`file` field whose extension has between 1 and 10 bytes, if `os.Create` and
`io.Copy` succeed, then after the handler returns the storage holds exactly the
uploaded bytes at `Join(UPLOAD_PATH, id ++ extension)` and every other path is
as before. -/
theorem C6_stored_content (cfg : Config) (env : Env) (fs : FS) (writeErr : Bool)
    (r : Request) (file : List UInt8) (fh : FileHeader) (hm : r.Method = MethodPost)
    (hk : r.Header.Get (str "X-API-Key") = cfg.apiKey)
    (hf : r.FormFile (str "file") = some (file, fh))
    (h1 : 1 ≤ (Ext fh.Filename).length) (h10 : (Ext fh.Filename).length ≤ 10)
    (hc : env.createErr = false) (hcp : env.copyErr = none) :
    (uploadHandler cfg env fs (newResponseWriter writeErr) r).2
        (Join [cfg.uploadPath, uuidString (uuidNew env.random) ++ Ext fh.Filename]) = some file
    ∧ ∀ p, p ≠ Join [cfg.uploadPath, uuidString (uuidNew env.random) ++ Ext fh.Filename] →
        (uploadHandler cfg env fs (newResponseWriter writeErr) r).2 p = fs p := by
  have he : ¬(Ext fh.Filename = [] ∨ (Ext fh.Filename).length > 10) := by
    rintro (h | h)
    · rw [h] at h1; simp at h1
    · omega
  rw [(handler_stored cfg env fs _ r file fh hm hk hf he hc hcp).1]
  refine ⟨by simp, ?_⟩
  intro p hp
  simp [hp]

/-- Witness of C6: `photo.png` with the right key, nothing failing. -/
theorem C6_stored_content_witness :
    (uploadHandler exampleConfig quietEnv emptyFS (newResponseWriter false) photoRequest).2
        (Join [exampleConfig.uploadPath,
          uuidString (uuidNew quietEnv.random) ++ Ext (str "photo.png")]) = some [0xFF, 0xD8]
    ∧ ∀ p, p ≠ Join [exampleConfig.uploadPath,
          uuidString (uuidNew quietEnv.random) ++ Ext (str "photo.png")] →
        (uploadHandler exampleConfig quietEnv emptyFS (newResponseWriter false) photoRequest).2 p
          = emptyFS p :=
  C6_stored_content exampleConfig quietEnv emptyFS false photoRequest [0xFF, 0xD8]
    ⟨str "photo.png", [0xFF, 0xD8], false⟩ (by decide) (by decide) (by decide) (by decide)
    (by decide) rfl rfl

/-- C7 (as stated, refuted): when the client sends the file name `a.b/c`, the
substring of that name from its last `.` to its end is `.b/c`, of length 4,
but the parser hands over `c`, the extension is empty and the upload is
rejected with 415.  When the client sends `x.png/`, that substring is `.png/`,
but the parser hands over `x.png`, the upload succeeds and the stored name in
the returned URL is the id followed by `.png`. -/
theorem C7_counterexample :
    (lastDotSubstring (str "a.b/c") = str ".b/c"
      ∧ slashRequest.FormFile (str "file") = some ([1, 2, 3], ⟨str "c", [1, 2, 3], false⟩)
      ∧ Ext (str "c") = []
      ∧ (uploadHandler exampleConfig quietEnv emptyFS (newResponseWriter false) slashRequest).1.status
          = 415)
    ∧ (lastDotSubstring (str "x.png/") = str ".png/"
      ∧ trailingSlashRequest.FormFile (str "file")
          = some ([1, 2, 3], ⟨str "x.png", [1, 2, 3], false⟩)
      ∧ (uploadHandler exampleConfig quietEnv emptyFS (newResponseWriter false)
          trailingSlashRequest).1.status = 200
      ∧ decodeURL (uploadHandler exampleConfig quietEnv emptyFS (newResponseWriter false)
          trailingSlashRequest).1.body
          = some (exampleConfig.publicURL ++ (uuidString (uuidNew quietEnv.random) ++ str ".png"))) := by
  decide

/-- C7 (amended): for every client-supplied file name, the extension the
handler validates and appends is taken from the name the multipart parser
hands over, which is `filepath.Base` of the client's name (its final path
element, trailing separators dropped): it is exactly the substring of that
parsed name from its last `.` to its end, the dot included, and empty when the
parsed name has no `.`.  The upload is rejected with 415 exactly when that
substring is empty or longer than 10 bytes; otherwise, when the file is
created and copied, it is stored under the generated id followed by that
substring, copied verbatim. -/
theorem C7_extension_of_parsed_name (cfg : Config) (env : Env) (fs : FS) (writeErr : Bool)
    (r : Request) (file : List UInt8) (fh : FileHeader) (clientName : GoString)
    (hm : r.Method = MethodPost)
    (hk : r.Header.Get (str "X-API-Key") = cfg.apiKey)
    (hf : r.FormFile (str "file") = some (file, fh))
    (hparsed : fh.Filename = partFileName clientName) :
    Ext fh.Filename = lastDotSubstring (partFileName clientName)
    ∧ ((uploadHandler cfg env fs (newResponseWriter writeErr) r).1.status = 415
        ↔ (lastDotSubstring (partFileName clientName) = []
            ∨ 10 < (lastDotSubstring (partFileName clientName)).length))
    ∧ (¬(lastDotSubstring (partFileName clientName) = []
            ∨ 10 < (lastDotSubstring (partFileName clientName)).length) →
        env.createErr = false → env.copyErr = none →
        (uploadHandler cfg env fs (newResponseWriter writeErr) r).2
          (Join [cfg.uploadPath,
            uuidString (uuidNew env.random) ++ lastDotSubstring (partFileName clientName)])
          = some file) := by
  have hext : Ext fh.Filename = lastDotSubstring (partFileName clientName) := by
    rw [hparsed]; exact Ext_partFileName clientName
  refine ⟨hext, ?_, ?_⟩
  · rw [← hext, uploadHandler_status]
    unfold specStatus
    rw [hf]
    simp only []
    rw [MethodPost_eq] at hm
    by_cases he : Ext fh.Filename = [] ∨ 10 < (Ext fh.Filename).length
    · simp [hm, hk, he]
    · simp only [hm, hk, he, ne_eq, not_true_eq_false, if_false, iff_false]
      split_ifs <;> simp
  · intro he hc hcp
    rw [← hext] at he ⊢
    rw [(handler_stored cfg env fs _ r file fh hm hk hf he hc hcp).1]
    simp

/-- Witness of C7: the client sends `photo.png`, which is stored under the id
followed by `.png`. -/
theorem C7_extension_of_parsed_name_witness :
    Ext (str "photo.png") = lastDotSubstring (partFileName (str "photo.png"))
    ∧ lastDotSubstring (partFileName (str "photo.png")) = str ".png"
    ∧ (uploadHandler exampleConfig quietEnv emptyFS (newResponseWriter false) photoRequest).2
        (Join [exampleConfig.uploadPath,
          uuidString (uuidNew quietEnv.random)
            ++ lastDotSubstring (partFileName (str "photo.png"))])
        = some [0xFF, 0xD8] :=
  have h := C7_extension_of_parsed_name exampleConfig quietEnv emptyFS false photoRequest
    [0xFF, 0xD8] ⟨str "photo.png", [0xFF, 0xD8], false⟩ (str "photo.png") (by decide) (by decide)
    (by decide) (by decide)
  ⟨h.1, by decide, h.2.2 (by decide) rfl rfl⟩

/-- C8: two successful uploads whose generated ids differ (each id is a
36-byte UUID string) have distinct stored names, distinct destination paths and
distinct URLs, whatever the contents, file names and extensions; after both
uploads the storage holds both files, each with its own content, and the two
response bodies differ when both are written and both URLs are valid UTF-8. -/
theorem C8_uploads_not_idempotent (cfg : Config) (env1 env2 : Env) (fs : FS)
    (writeErr1 writeErr2 : Bool) (r1 r2 : Request) (file1 file2 : List UInt8)
    (fh1 fh2 : FileHeader)
    (hf1 : r1.FormFile (str "file") = some (file1, fh1))
    (hf2 : r2.FormFile (str "file") = some (file2, fh2))
    (hok1 : (uploadHandler cfg env1 fs (newResponseWriter writeErr1) r1).1.status = 200)
    (hok2 : (uploadHandler cfg env2 (uploadHandler cfg env1 fs (newResponseWriter writeErr1) r1).2
      (newResponseWriter writeErr2) r2).1.status = 200)
    (hid : uuidString (uuidNew env1.random) ≠ uuidString (uuidNew env2.random)) :
    ((uuidString (uuidNew env1.random)).length = 36
      ∧ (uuidString (uuidNew env2.random)).length = 36)
    ∧ uuidString (uuidNew env1.random) ++ Ext fh1.Filename
        ≠ uuidString (uuidNew env2.random) ++ Ext fh2.Filename
    ∧ Join [cfg.uploadPath, uuidString (uuidNew env1.random) ++ Ext fh1.Filename]
        ≠ Join [cfg.uploadPath, uuidString (uuidNew env2.random) ++ Ext fh2.Filename]
    ∧ cfg.publicURL ++ (uuidString (uuidNew env1.random) ++ Ext fh1.Filename)
        ≠ cfg.publicURL ++ (uuidString (uuidNew env2.random) ++ Ext fh2.Filename)
    ∧ (uploadHandler cfg env2 (uploadHandler cfg env1 fs (newResponseWriter writeErr1) r1).2
        (newResponseWriter writeErr2) r2).2
          (Join [cfg.uploadPath, uuidString (uuidNew env1.random) ++ Ext fh1.Filename])
        = some file1
    ∧ (uploadHandler cfg env2 (uploadHandler cfg env1 fs (newResponseWriter writeErr1) r1).2
        (newResponseWriter writeErr2) r2).2
          (Join [cfg.uploadPath, uuidString (uuidNew env2.random) ++ Ext fh2.Filename])
        = some file2
    ∧ (writeErr1 = false → writeErr2 = false →
        ValidString (cfg.publicURL ++ (uuidString (uuidNew env1.random) ++ Ext fh1.Filename))
          = true →
        ValidString (cfg.publicURL ++ (uuidString (uuidNew env2.random) ++ Ext fh2.Filename))
          = true →
        (uploadHandler cfg env1 fs (newResponseWriter writeErr1) r1).1.body
          ≠ (uploadHandler cfg env2
              (uploadHandler cfg env1 fs (newResponseWriter writeErr1) r1).2
              (newResponseWriter writeErr2) r2).1.body) := by
  have hl1 := uuidString_length _ (uuidNew_length env1.random)
  have hl2 := uuidString_length _ (uuidNew_length env2.random)
  have hname : uuidString (uuidNew env1.random) ++ Ext fh1.Filename
      ≠ uuidString (uuidNew env2.random) ++ Ext fh2.Filename := by
    intro e
    exact hid (List.append_inj e (by rw [hl1, hl2])).1
  obtain ⟨pre, _, hpre⟩ := Join_plain_name cfg.uploadPath
  obtain ⟨a1, a2, a3, a4⟩ := uniqueName_plain env1.random fh1.Filename
  obtain ⟨b1, b2, b3, b4⟩ := uniqueName_plain env2.random fh2.Filename
  have hpath : Join [cfg.uploadPath, uuidString (uuidNew env1.random) ++ Ext fh1.Filename]
      ≠ Join [cfg.uploadPath, uuidString (uuidNew env2.random) ++ Ext fh2.Filename] := by
    rw [hpre _ a1 a2 a3 a4, hpre _ b1 b2 b3 b4]
    intro e
    exact hname (List.append_cancel_left e)
  obtain ⟨hm1, hk1, he1, hc1, hcp1⟩ := status_200 cfg env1 fs writeErr1 r1 file1 fh1 hf1 hok1
  obtain ⟨hm2, hk2, he2, hc2, hcp2⟩ := status_200 cfg env2 _ writeErr2 r2 file2 fh2 hf2 hok2
  have hurl : cfg.publicURL ++ (uuidString (uuidNew env1.random) ++ Ext fh1.Filename)
      ≠ cfg.publicURL ++ (uuidString (uuidNew env2.random) ++ Ext fh2.Filename) :=
    fun e => hname (List.append_cancel_left e)
  refine ⟨⟨hl1, hl2⟩, hname, hpath, hurl, ?_, ?_, ?_⟩
  · rw [(handler_stored cfg env2 _ _ r2 file2 fh2 hm2 hk2 hf2 he2 hc2 hcp2).1,
      (handler_stored cfg env1 fs _ r1 file1 fh1 hm1 hk1 hf1 he1 hc1 hcp1).1]
    simp [hpath]
  · rw [(handler_stored cfg env2 _ _ r2 file2 fh2 hm2 hk2 hf2 he2 hc2 hcp2).1]
    simp
  · intro hw1 hw2 hv1 hv2 hbody
    have hb1 := (success_response cfg env1 fs writeErr1 r1 file1 fh1 hm1 hk1 hf1 he1 hc1 hcp1).2.2 hw1
    have hb2 := (success_response cfg env2
      (uploadHandler cfg env1 fs (newResponseWriter writeErr1) r1).2 writeErr2 r2 file2 fh2
      hm2 hk2 hf2 he2 hc2 hcp2).2.2 hw2
    have hd1 := decodeURL_jsonMarshal env1.jsonRaw _ hv1
    have hd2 := decodeURL_jsonMarshal env2.jsonRaw _ hv2
    rw [← hb1, hbody, hb2, hd2] at hd1
    exact hurl (Option.some.inj hd1).symm

/-- Witness of C8: the same `photo.png` uploaded twice, with different random
bytes. -/
theorem C8_uploads_not_idempotent_witness :
    Join [exampleConfig.uploadPath, uuidString (uuidNew quietEnv.random) ++ Ext (str "photo.png")]
      ≠ Join [exampleConfig.uploadPath,
          uuidString (uuidNew quietEnvOne.random) ++ Ext (str "photo.png")] :=
  (C8_uploads_not_idempotent exampleConfig quietEnv quietEnvOne emptyFS false false photoRequest
    photoRequest [0xFF, 0xD8] [0xFF, 0xD8] ⟨str "photo.png", [0xFF, 0xD8], false⟩
    ⟨str "photo.png", [0xFF, 0xD8], false⟩ (by decide) (by decide) (by decide) (by decide)
    (by decide)).2.2.1

/-- C9: `main` stops with a fatal error before registering the route or
calling `ListenAndServe` exactly when `API_KEY` is unset or empty; whenever the
route is registered the configured key is not empty, and then a request with no
`X-API-Key` header never gets past the key gate: it is answered 405 or 401 and
the storage is unchanged. -/
theorem C9_startup_requires_key (environ : Environ) (listenErr : Bool) :
    (((main environ listenErr).fatal ≠ none ∧ (main environ listenErr).routes = []
        ∧ (main environ listenErr).listenAddr = none)
      ↔ (environ (str "API_KEY") = none ∨ environ (str "API_KEY") = some []))
    ∧ (str "/upload" ∈ (main environ listenErr).routes →
        (loadConfig environ).apiKey ≠ []
        ∧ ∀ (env : Env) (fs : FS) (writeErr : Bool) (r : Request),
            r.Header (CanonicalMIMEHeaderKey (str "X-API-Key")) = [] →
            (uploadHandler (loadConfig environ) env fs (newResponseWriter writeErr) r).1.status
                = (if r.Method = MethodPost then 401 else 405)
              ∧ (uploadHandler (loadConfig environ) env fs (newResponseWriter writeErr) r).2
                = fs) := by
  have hkey : (loadConfig environ).apiKey = []
      ↔ (environ (str "API_KEY") = none ∨ environ (str "API_KEY") = some []) := by
    simp only [loadConfig, Getenv]
    cases environ (str "API_KEY") <;> simp
  constructor
  · rw [← hkey]
    unfold main
    by_cases h : (loadConfig environ).apiKey = []
    · simp [h]
    · cases listenErr <;> simp [h]
  · intro hreg
    have hne : (loadConfig environ).apiKey ≠ [] := by
      intro h
      simp [main, h] at hreg
    refine ⟨hne, ?_⟩
    intro env fs writeErr r habs
    by_cases hm : r.Method = MethodPost
    · have hk : r.Header.Get (str "X-API-Key") ≠ (loadConfig environ).apiKey := by
        simp only [Header.Get, habs]
        exact fun h => hne h.symm
      rw [handler_bad_key _ env fs _ r hm hk]
      simp [httpError_status, newResponseWriter, hm]
    · rw [handler_not_post _ env fs _ r hm]
      simp [httpError_status, newResponseWriter, hm]

/-- Witness of C9: with `API_KEY=secret123` the route is registered, and a
POST without the header is answered 401. -/
theorem C9_startup_requires_key_witness :
    (uploadHandler (loadConfig exampleEnviron) quietEnv emptyFS (newResponseWriter false)
        noKeyRequest).1.status = (if noKeyRequest.Method = MethodPost then 401 else 405) :=
  (((C9_startup_requires_key exampleEnviron false).2 (by decide)).2 quietEnv emptyFS false
    noKeyRequest (by decide)).1

/-- C10: for every file name the extension contains no path separator, so the
stored name (UUID string followed by the extension) contains none and is
neither `.` nor `..`; the destination `Join(UPLOAD_PATH, stored name)` has the
stored name as its final element and is the cleaned storage directory, one
separator, and the stored name (just the name when the cleaned directory is
`.`, and `/` followed by the name when it is `/`).  The handler changes the
storage at no other path. -/
theorem C10_no_path_traversal (cfg : Config) (env : Env) :
    (∀ filename : GoString,
      Separator ∉ Ext filename
      ∧ Separator ∉ uuidString (uuidNew env.random) ++ Ext filename
      ∧ uuidString (uuidNew env.random) ++ Ext filename ≠ [dot]
      ∧ uuidString (uuidNew env.random) ++ Ext filename ≠ [dot, dot]
      ∧ Base (Join [cfg.uploadPath, uuidString (uuidNew env.random) ++ Ext filename])
          = uuidString (uuidNew env.random) ++ Ext filename
      ∧ ((Clean cfg.uploadPath = [dot]
            ∧ Join [cfg.uploadPath, uuidString (uuidNew env.random) ++ Ext filename]
                = uuidString (uuidNew env.random) ++ Ext filename)
          ∨ (Clean cfg.uploadPath = [Separator]
            ∧ Join [cfg.uploadPath, uuidString (uuidNew env.random) ++ Ext filename]
                = Separator :: (uuidString (uuidNew env.random) ++ Ext filename))
          ∨ Join [cfg.uploadPath, uuidString (uuidNew env.random) ++ Ext filename]
              = Clean cfg.uploadPath ++ [Separator]
                  ++ (uuidString (uuidNew env.random) ++ Ext filename)))
    ∧ (∀ (fs : FS) (w : ResponseWriter) (r : Request) (p : GoString),
        (uploadHandler cfg env fs w r).2 p ≠ fs p →
        ∃ file fh, r.FormFile (str "file") = some (file, fh)
          ∧ p = Join [cfg.uploadPath, uuidString (uuidNew env.random) ++ Ext fh.Filename]) := by
  refine ⟨?_, fun fs w r p hp => handler_writes cfg env fs w r p hp⟩
  intro filename
  obtain ⟨a1, a2, a3, a4⟩ := uniqueName_plain env.random filename
  obtain ⟨pre, hcases, hpre⟩ := Join_plain_name cfg.uploadPath
  have hj := hpre _ a1 a2 a3 a4
  refine ⟨Ext_no_sep _, a2, a3, a4, ?_, ?_⟩
  · rw [hj]
    apply Base_append_plain _ _ _ a1 a2
    rcases hcases with ⟨h, _⟩ | ⟨h, _⟩ | h
    · exact Or.inl h
    · exact Or.inr ⟨[], by rw [h]; rfl⟩
    · exact Or.inr ⟨_, h⟩
  · rcases hcases with ⟨h, hc⟩ | ⟨h, hc⟩ | h
    · left; exact ⟨hc, by rw [hj, h, List.nil_append]⟩
    · right; left; exact ⟨hc, by rw [hj, h, List.singleton_append]⟩
    · right; right; rw [hj, h]

/-- Witness of C10: the upload of `photo.png` changes the storage at its
destination, which is the storage directory, a separator and the stored
name. -/
theorem C10_no_path_traversal_witness :
    (∃ file fh, photoRequest.FormFile (str "file") = some (file, fh)
      ∧ str "/srv/uploads/00000000-0000-4000-8000-000000000000.png"
        = Join [exampleConfig.uploadPath, uuidString (uuidNew quietEnv.random) ++ Ext fh.Filename])
    ∧ Base (str "/srv/uploads/00000000-0000-4000-8000-000000000000.png")
        = str "00000000-0000-4000-8000-000000000000.png" :=
  ⟨(C10_no_path_traversal exampleConfig quietEnv).2 emptyFS (newResponseWriter false) photoRequest
    (str "/srv/uploads/00000000-0000-4000-8000-000000000000.png") (by decide), by decide⟩

end GuardCDN
